import Mathlib

/-!
Verification development for the BBS-2023 data-integrity suite
(selective-disclosure proofs over JSON-LD credentials).

The development shallowly embeds the suite's core functions:
label-map compression, proof-value envelope serialization and parsing,
key-material codecs (Multikey / JWK), keypair export, and the
index computation of the derivation pipeline.  Out-of-scope
collaborators (base58btc / base64url / CBOR codecs, SHA-256, the BBS
primitives, RDF canonicalization) are modelled abstractly via codec
structures whose contracts appear as explicit hypotheses; concrete
executable instances are provided so that every statement can be
evaluated on concrete inputs.

The file is organized as: all definitions first, then all theorems.
-/

namespace VcBbs

/-- Error codes surfaced by the suite (the union of the
ProcessingError and ImplementationError codes the embedded
functions can raise). -/
inductive Err where
  | PROOF_VERIFICATION_ERROR
  | PROOF_GENERATION_ERROR
  | PROOF_TRANSFORMATION_ERROR
  | DECODING_ERROR
  | INVALID_KEYPAIR_LENGTH
  | INVALID_KEYPAIR_CONTENT
  | INVALID_VERIFICATION_METHOD
  | ASSERTION_FAILED
  deriving DecidableEq

/-- The closed feature enumeration of the suite (constant/feature.ts). -/
inductive Feature where
  | BASELINE
  | ANONYMOUS_HOLDER_BINDING
  | PSEUDONYM
  | HOLDER_BINDING_PSEUDONYM
  deriving DecidableEq

/-! ### Decimal symbols

A tiny symbol alphabet used by the concrete witness codecs: the values
0-9 are decimal digits, 10 terminates a number, 11 terminates a
sequence.  All symbols are rendered as characters in the range 48-59
so that strings can carry them. -/

/-- Render a symbol value (0 to 11) as a character. -/
def digitChar : Nat → Char
  | 0 => '0'
  | 1 => '1'
  | 2 => '2'
  | 3 => '3'
  | 4 => '4'
  | 5 => '5'
  | 6 => '6'
  | 7 => '7'
  | 8 => '8'
  | 9 => '9'
  | 10 => ':'
  | 11 => ';'
  | _ => '?'

/-- Inverse of digitChar on the symbol range; 99 elsewhere. -/
def digitVal (c : Char) : Nat :=
  if c = '0' then 0
  else if c = '1' then 1
  else if c = '2' then 2
  else if c = '3' then 3
  else if c = '4' then 4
  else if c = '5' then 5
  else if c = '6' then 6
  else if c = '7' then 7
  else if c = '8' then 8
  else if c = '9' then 9
  else if c = ':' then 10
  else if c = ';' then 11
  else 99

/-! ### Self-delimiting encoding of numbers, number lists and strings

Used only by the concrete witness instances of the abstract codec
collaborators.  A number is its little-endian decimal digit list
followed by the symbol 10; a sequence is length-prefixed. -/

/-- Little-endian base-10 digits, computed with explicit fuel so that
concrete inputs reduce definitionally. -/
def digitsAuxM : Nat → Nat → List Nat
  | _, 0 => []
  | 0, _ + 1 => []
  | fuel + 1, n + 1 => (n + 1) % 10 :: digitsAuxM fuel ((n + 1) / 10)

/-- Little-endian base-10 digits of a natural number. -/
def digitsM (n : Nat) : List Nat := digitsAuxM n n

/-- Encode a natural number: little-endian base-10 digits, then symbol 10. -/
def encNat (n : Nat) : List Nat := digitsM n ++ [10]

/-- Split a symbol stream at the first symbol 10. -/
def splitSym : List Nat → Option (List Nat × List Nat)
  | [] => none
  | b :: bs =>
    if b = 10 then some ([], bs)
    else (splitSym bs).map (fun p => (b :: p.1, p.2))

/-- Decode one natural number from the stream, returning the rest. -/
def decNat (bs : List Nat) : Option (Nat × List Nat) :=
  (splitSym bs).map (fun p => (Nat.ofDigits 10 p.1, p.2))

/-- Decode a fixed count of numbers from the stream. -/
def decNats : Nat → List Nat → Option (List Nat × List Nat)
  | 0, bs => some ([], bs)
  | n + 1, bs =>
    (decNat bs).bind fun p =>
      (decNats n p.2).map fun q => (p.1 :: q.1, q.2)

/-- Encode a list of numbers: length, then each number. -/
def encSeq (l : List Nat) : List Nat := encNat l.length ++ (l.map encNat).flatten

/-- Decode a length-prefixed list of numbers. -/
def decSeq (bs : List Nat) : Option (List Nat × List Nat) :=
  (decNat bs).bind fun p => decNats p.1 p.2

/-- Encode an integer: a sign symbol, then the magnitude. -/
def encIntB : Int → List Nat
  | Int.ofNat n => 0 :: encNat n
  | Int.negSucc n => 1 :: encNat n

/-- Decode one integer from the stream. -/
def decIntB : List Nat → Option (Int × List Nat)
  | [] => none
  | b :: bs =>
    if b = 0 then (decNat bs).map fun p => (Int.ofNat p.1, p.2)
    else if b = 1 then (decNat bs).map fun p => (Int.negSucc p.1, p.2)
    else none

/-- Encode a string as the sequence of its character code points. -/
def encStrB (s : String) : List Nat := encSeq (s.data.map Char.toNat)

/-- Decode one string from the stream. -/
def decStrB (bs : List Nat) : Option (String × List Nat) :=
  (decSeq bs).map fun p => (String.mk (p.1.map Char.ofNat), p.2)

/-! ### JS number conversions

Models of the JavaScript collaborators used by the label-map module:
base-10 parseInt and number-to-string conversion. -/

/-- Leading decimal digits of a character list, as values, plus the rest. -/
def takeDigits : List Char → List Nat × List Char
  | [] => ([], [])
  | c :: cs =>
    if c.isDigit then
      let p := takeDigits cs
      ((c.toNat - 48) :: p.1, p.2)
    else ([], c :: cs)

/-- Strip one optional sign character. -/
def stripSign : List Char → Bool × List Char
  | [] => (false, [])
  | c :: cs =>
    if c = '-' then (true, cs)
    else if c = '+' then (false, cs)
    else (false, c :: cs)

/-- Model of JavaScript parseInt(s, 10): skip leading whitespace, read an
optional sign and then the longest run of leading decimal digits; NaN
(none) when that run is empty. -/
def parseIntJS (s : String) : Option Int :=
  let cs := s.data.dropWhile Char.isWhitespace
  let sp := stripSign cs
  let ds := (takeDigits sp.2).1
  if ds.isEmpty then none
  else
    let m : Nat := ds.foldl (fun a d => a * 10 + d) 0
    some (if sp.1 then -(m : Int) else (m : Int))

/-- Canonical base-10 rendering of a natural number (JS template
stringification of a non-negative integer). -/
def natStr (n : Nat) : String :=
  if n = 0 then "0" else String.mk (((digitsM n).reverse).map digitChar)

/-- Canonical base-10 rendering of an integer. -/
def intStr : Int → String
  | Int.ofNat n => natStr n
  | Int.negSucc n => "-" ++ natStr (n + 1)

/-! ### Label-map compression (src/selective/label.ts)

A JavaScript Map is modelled as an insertion-ordered association
list; Map.set updates an existing key in place and otherwise
appends. -/

/-- JS Map.set on an association list. -/
def insertKV {α β : Type} [DecidableEq α] (l : List (α × β)) (k : α) (v : β) :
    List (α × β) :=
  if l.any (fun p => p.1 = k) then l.map (fun p => if p.1 = k then (k, v) else p)
  else l ++ [(k, v)]

/-- Build a JS Map from an entry list by repeated Map.set. -/
def buildMap {α β : Type} [DecidableEq α] (l : List (α × β)) : List (α × β) :=
  l.foldl (fun acc p => insertKV acc p.1 p.2) []

/-- JS String.startsWith, on the character lists. -/
def startsWithM (s p : String) : Bool := p.data.isPrefixOf s.data

/-- Drop the first k characters of a string (models replacing a verified
leading occurrence of a k-character pattern with the empty string). -/
def stripPfx (s : String) (k : Nat) : String := String.mk (s.data.drop k)

/-- One entry of compressLabelMap: prefix checks, then base-10 parses. -/
def compressEntry (k v : String) : Except Err (Int × Int) :=
  if ¬ startsWithM k "c14n" then .error .PROOF_GENERATION_ERROR
  else if ¬ startsWithM v "b" then .error .PROOF_GENERATION_ERROR
  else
    match parseIntJS (stripPfx k 4), parseIntJS (stripPfx v 1) with
    | some i, some d => .ok (i, d)
    | _, _ => .error .PROOF_GENERATION_ERROR

/-- Worker of compressLabelMap, accumulating the compressed map. -/
def compressAux (acc : List (Int × Int)) : List (String × String) →
    Except Err (List (Int × Int))
  | [] => .ok acc
  | (k, v) :: rest =>
    match compressEntry k v with
    | .ok p => compressAux (insertKV acc p.1 p.2) rest
    | .error e => .error e

/-- compressLabelMap (src/selective/label.ts): for each entry require the
key to start with "c14n" and the value with "b", parse the suffixes with
parseInt(-, 10), and fail with PROOF_GENERATION_ERROR on a prefix
mismatch or a NaN parse. -/
def compressLabelMap (labelMap : List (String × String)) :
    Except Err (List (Int × Int)) :=
  compressAux [] labelMap

/-- Worker of decompressLabelMap. -/
def decompressAux (acc : List (String × String)) : List (Int × Int) →
    List (String × String)
  | [] => acc
  | (k, v) :: rest =>
    decompressAux (insertKV acc ("c14n" ++ intStr k) ("b" ++ intStr v)) rest

/-- decompressLabelMap (src/selective/label.ts): prepend the fixed
prefixes to the stringified integers. -/
def decompressLabelMap (compressedLabelMap : List (Int × Int)) :
    List (String × String) :=
  decompressAux [] compressedLabelMap

/-- The canonical label map built from numeric entries: keys c14n<n>,
values b<k> with canonical decimal suffixes. -/
def canonLabelMap (entries : List (Nat × Nat)) : List (String × String) :=
  entries.map (fun p => ("c14n" ++ natStr p.1, "b" ++ natStr p.2))

/-- An entry accepted by compressLabelMap: both prefixes correct and
both suffixes parse to integers. -/
def goodEntry (k v : String) : Prop :=
  startsWithM k "c14n" = true ∧ startsWithM v "b" = true ∧
  (parseIntJS (stripPfx k 4)).isSome = true ∧ (parseIntJS (stripPfx v 1)).isSome = true

instance (k v : String) : Decidable (goodEntry k v) := by
  unfold goodEntry
  infer_instance

/-- The parsed integer pair of an accepted entry. -/
def parsedEntry (k v : String) : Int × Int :=
  ((parseIntJS (stripPfx k 4)).getD 0, (parseIntJS (stripPfx v 1)).getD 0)

/-! ### CBOR component universe

The envelope payload is a CBOR array whose elements are byte strings,
arrays of text strings, arrays of integers, integer-keyed integer maps,
or plain integers; this universe covers exactly those shapes. -/

/-- A CBOR component value as used by the proof-value envelope. -/
inductive Comp where
  | bytes (bs : List Nat)
  | strs (ss : List String)
  | ints (ns : List Int)
  | imap (m : List (Int × Int))
  | num (n : Int)
  deriving DecidableEq

/-- View a component as a JS array of strings.  An empty CBOR array
also satisfies the every-element-is-a-string check. -/
def Comp.asStrs : Comp → Option (List String)
  | .strs ss => some ss
  | .ints [] => some []
  | _ => none

/-- View a component as a JS array of integers.  An empty CBOR array
also satisfies the every-element-is-a-number check. -/
def Comp.asInts : Comp → Option (List Int)
  | .ints ns => some ns
  | .strs [] => some []
  | _ => none

/-- The parsed pieces of a base proof value (assert.ts,
assertBaseProofValue result, before the feature is attached). -/
structure BasePartial where
  bbsSignature : List Nat
  bbsHeader : List Nat
  publicKey : List Nat
  hmacKey : List Nat
  mandatoryPointers : List String
  signerNymEntropy : Option (List Nat)
  deriving DecidableEq

/-- The parsed pieces of a derived proof value (assert.ts,
assertCompressedProofValue result, before the feature is attached). -/
structure CompressedPartial where
  bbsProof : List Nat
  compressedLabelMap : List (Int × Int)
  mandatoryIndexes : List Int
  selectiveIndexes : List Int
  presentationHeader : List Nat
  nymDomain : Option (List Nat)
  pseudonym : Option (List Nat)
  lengthBBSMessages : Option Int
  deriving DecidableEq

/-- assertBaseProofValue (selective/assert.ts): a 5- or 6-element array
with fixed byte lengths 80/64/96/32, a string array of pointers, and an
optional byte-string entropy as the sixth element. -/
def assertBaseProofValue (components : List Comp) : Option BasePartial :=
  match components with
  | [.bytes s, .bytes h, .bytes p, .bytes k, mp] =>
    if s.length = 80 ∧ h.length = 64 ∧ p.length = 96 ∧ k.length = 32 then
      mp.asStrs.map fun ss =>
        { bbsSignature := s, bbsHeader := h, publicKey := p, hmacKey := k,
          mandatoryPointers := ss, signerNymEntropy := none }
    else none
  | [.bytes s, .bytes h, .bytes p, .bytes k, mp, .bytes e] =>
    if s.length = 80 ∧ h.length = 64 ∧ p.length = 96 ∧ k.length = 32 then
      mp.asStrs.map fun ss =>
        { bbsSignature := s, bbsHeader := h, publicKey := p, hmacKey := k,
          mandatoryPointers := ss, signerNymEntropy := some e }
    else none
  | _ => none

/-- assertCompressedProofValue (selective/assert.ts): a 5-, 6- or
8-element array; byte-string proof and presentation header, an
integer-keyed integer map, two arrays of non-negative integers, and the
feature-dependent tail. -/
def assertCompressedProofValue (components : List Comp) : Option CompressedPartial :=
  match components with
  | [.bytes pr, .imap m, mi, si, .bytes ph] =>
    mi.asInts.bind fun mis =>
    si.asInts.bind fun sis =>
    if mis.all (fun n => 0 ≤ n) ∧ sis.all (fun n => 0 ≤ n) then
      some { bbsProof := pr, compressedLabelMap := m, mandatoryIndexes := mis,
             selectiveIndexes := sis, presentationHeader := ph,
             nymDomain := none, pseudonym := none, lengthBBSMessages := none }
    else none
  | [.bytes pr, .imap m, mi, si, .bytes ph, .num L] =>
    mi.asInts.bind fun mis =>
    si.asInts.bind fun sis =>
    if mis.all (fun n => 0 ≤ n) ∧ sis.all (fun n => 0 ≤ n) ∧ 0 ≤ L then
      some { bbsProof := pr, compressedLabelMap := m, mandatoryIndexes := mis,
             selectiveIndexes := sis, presentationHeader := ph,
             nymDomain := none, pseudonym := none, lengthBBSMessages := some L }
    else none
  | [.bytes pr, .imap m, mi, si, .bytes ph, .bytes nd, .bytes py, .num L] =>
    mi.asInts.bind fun mis =>
    si.asInts.bind fun sis =>
    if mis.all (fun n => 0 ≤ n) ∧ sis.all (fun n => 0 ≤ n) ∧ 0 ≤ L then
      some { bbsProof := pr, compressedLabelMap := m, mandatoryIndexes := mis,
             selectiveIndexes := sis, presentationHeader := ph,
             nymDomain := some nd, pseudonym := some py, lengthBBSMessages := some L }
    else none
  | _ => none

/-! ### Proof-value envelope (src/selective/serialize.ts) -/

/-- A parsed base proof value. -/
structure BaseProofValue where
  bbsSignature : List Nat
  bbsHeader : List Nat
  publicKey : List Nat
  hmacKey : List Nat
  mandatoryPointers : List String
  feature : Feature
  signerNymEntropy : Option (List Nat) := none
  deriving DecidableEq

/-- A parsed derived proof value. -/
structure DerivedProofValue where
  bbsProof : List Nat
  labelMap : List (String × String)
  mandatoryIndexes : List Int
  selectiveIndexes : List Int
  presentationHeader : List Nat
  feature : Feature
  nymDomain : Option (List Nat) := none
  pseudonym : Option (List Nat) := none
  lengthBBSMessages : Option Int := none
  deriving DecidableEq

/-- The three BBS base proof header bytes per feature (constant/prefix.ts). -/
def cborBaseHdr : Feature → List Nat
  | .BASELINE => [0xd9, 0x5d, 0x02]
  | .ANONYMOUS_HOLDER_BINDING => [0xd9, 0x5d, 0x04]
  | .PSEUDONYM => [0xd9, 0x5d, 0x06]
  | .HOLDER_BINDING_PSEUDONYM => [0xd9, 0x5d, 0x08]

/-- The three BBS disclosure proof header bytes per feature. -/
def cborDerivedHdr : Feature → List Nat
  | .BASELINE => [0xd9, 0x5d, 0x03]
  | .ANONYMOUS_HOLDER_BINDING => [0xd9, 0x5d, 0x05]
  | .PSEUDONYM => [0xd9, 0x5d, 0x07]
  | .HOLDER_BINDING_PSEUDONYM => [0xd9, 0x5d, 0x09]

/-- Feature allowlist for the third base proof header byte. -/
def baseFeatureOf : Nat → Option Feature
  | 0x02 => some .BASELINE
  | 0x04 => some .ANONYMOUS_HOLDER_BINDING
  | 0x06 => some .PSEUDONYM
  | 0x08 => some .HOLDER_BINDING_PSEUDONYM
  | _ => none

/-- Feature allowlist for the third disclosure proof header byte. -/
def derivedFeatureOf : Nat → Option Feature
  | 0x03 => some .BASELINE
  | 0x05 => some .ANONYMOUS_HOLDER_BINDING
  | 0x07 => some .PSEUDONYM
  | 0x09 => some .HOLDER_BINDING_PSEUDONYM
  | _ => none

/-- Abstract multibase-base64url-no-pad codec (out-of-scope
collaborator): byte lists to u-prefixed strings and back. -/
structure MbCodec where
  enc : List Nat → String
  dec : String → Option (List Nat)

/-- The codec decodes its own encodings. -/
def MbCodec.RoundTrip (c : MbCodec) : Prop := ∀ b, c.dec (c.enc b) = some b

/-- The codec rejects strings that do not carry the multibase header u. -/
def MbCodec.RejectsNonU (c : MbCodec) : Prop :=
  ∀ s, s.data.head? ≠ some 'u' → c.dec s = none

/-- Abstract CBOR codec for component arrays (out-of-scope collaborator). -/
structure CborCodec where
  enc : List Comp → List Nat
  dec : List Nat → Option (List Comp)

/-- The codec decodes its own encodings. -/
def CborCodec.RoundTrip (c : CborCodec) : Prop := ∀ v, c.dec (c.enc v) = some v

/-- serializeBaseProofValue (src/selective/serialize.ts). -/
def serializeBaseProofValue (mc : MbCodec) (cc : CborCodec) (v : BaseProofValue) :
    Except Err String :=
  let base := [Comp.bytes v.bbsSignature, Comp.bytes v.bbsHeader, Comp.bytes v.publicKey,
               Comp.bytes v.hmacKey, Comp.strs v.mandatoryPointers]
  if v.feature = .PSEUDONYM ∨ v.feature = .HOLDER_BINDING_PSEUDONYM then
    match v.signerNymEntropy with
    | none => .error .PROOF_GENERATION_ERROR
    | some e =>
      match assertBaseProofValue (base ++ [Comp.bytes e]) with
      | none => .error .ASSERTION_FAILED
      | some _ => .ok (mc.enc (cborBaseHdr v.feature ++ cc.enc (base ++ [Comp.bytes e])))
  else
    match assertBaseProofValue base with
    | none => .error .ASSERTION_FAILED
    | some _ => .ok (mc.enc (cborBaseHdr v.feature ++ cc.enc base))

/-- The feature-dependent tail of a derived components array; a JS
falsiness check makes a zero lengthBBSMessages count as missing. -/
def extraDerivedComponents (v : DerivedProofValue) : Except Err (List Comp) :=
  match v.feature with
  | .BASELINE => .ok []
  | .ANONYMOUS_HOLDER_BINDING =>
    match v.lengthBBSMessages with
    | some L => if L = 0 then .error .PROOF_GENERATION_ERROR else .ok [Comp.num L]
    | none => .error .PROOF_GENERATION_ERROR
  | _ =>
    match v.nymDomain, v.pseudonym, v.lengthBBSMessages with
    | some nd, some py, some L =>
      if L = 0 then .error .PROOF_GENERATION_ERROR
      else .ok [Comp.bytes nd, Comp.bytes py, Comp.num L]
    | _, _, _ => .error .PROOF_GENERATION_ERROR

/-- serializeDerivedProofValue (src/selective/serialize.ts). -/
def serializeDerivedProofValue (mc : MbCodec) (cc : CborCodec) (v : DerivedProofValue) :
    Except Err String :=
  match compressLabelMap v.labelMap with
  | .error e => .error e
  | .ok clm =>
    match extraDerivedComponents v with
    | .error e => .error e
    | .ok extra =>
      let comps := [Comp.bytes v.bbsProof, Comp.imap clm, Comp.ints v.mandatoryIndexes,
                    Comp.ints v.selectiveIndexes, Comp.bytes v.presentationHeader] ++ extra
      match assertCompressedProofValue comps with
      | none => .error .ASSERTION_FAILED
      | some _ => .ok (mc.enc (cborDerivedHdr v.feature ++ cc.enc comps))

/-- Attach a feature to a parsed base partial. -/
def BasePartial.withFeature (p : BasePartial) (f : Feature) : BaseProofValue :=
  { bbsSignature := p.bbsSignature, bbsHeader := p.bbsHeader, publicKey := p.publicKey,
    hmacKey := p.hmacKey, mandatoryPointers := p.mandatoryPointers, feature := f,
    signerNymEntropy := p.signerNymEntropy }

/-- Attach a feature and a decompressed label map to a parsed
compressed partial. -/
def CompressedPartial.withFeature (p : CompressedPartial) (f : Feature) : DerivedProofValue :=
  { bbsProof := p.bbsProof, labelMap := decompressLabelMap p.compressedLabelMap,
    mandatoryIndexes := p.mandatoryIndexes, selectiveIndexes := p.selectiveIndexes,
    presentationHeader := p.presentationHeader, feature := f,
    nymDomain := p.nymDomain, pseudonym := p.pseudonym,
    lengthBBSMessages := p.lengthBBSMessages }

/-- parseBaseProofValue (src/selective/serialize.ts): multibase-decode,
check the two tag bytes and the feature byte, CBOR-decode the rest,
validate the components, and require entropy for the pseudonym
features; every failure is PROOF_VERIFICATION_ERROR. -/
def parseBaseProofValue (mc : MbCodec) (cc : CborCodec) (s : String) :
    Except Err BaseProofValue :=
  match mc.dec s with
  | none => .error .PROOF_VERIFICATION_ERROR
  | some bs =>
    match bs with
    | b0 :: b1 :: b2 :: rest =>
      if b0 = 0xd9 ∧ b1 = 0x5d then
        match baseFeatureOf b2 with
        | none => .error .PROOF_VERIFICATION_ERROR
        | some f =>
          match cc.dec rest with
          | none => .error .PROOF_VERIFICATION_ERROR
          | some comps =>
            match assertBaseProofValue comps with
            | none => .error .PROOF_VERIFICATION_ERROR
            | some pv =>
              if (f = .PSEUDONYM ∨ f = .HOLDER_BINDING_PSEUDONYM) ∧
                  pv.signerNymEntropy = none then
                .error .PROOF_VERIFICATION_ERROR
              else .ok (pv.withFeature f)
      else .error .PROOF_VERIFICATION_ERROR
    | _ => .error .PROOF_VERIFICATION_ERROR

/-- parseDerivedProofValue (src/selective/serialize.ts); the
feature-dependent requireds use JS falsiness, so a zero
lengthBBSMessages is rejected. -/
def parseDerivedProofValue (mc : MbCodec) (cc : CborCodec) (s : String) :
    Except Err DerivedProofValue :=
  match mc.dec s with
  | none => .error .PROOF_VERIFICATION_ERROR
  | some bs =>
    match bs with
    | b0 :: b1 :: b2 :: rest =>
      if b0 = 0xd9 ∧ b1 = 0x5d then
        match derivedFeatureOf b2 with
        | none => .error .PROOF_VERIFICATION_ERROR
        | some f =>
          match cc.dec rest with
          | none => .error .PROOF_VERIFICATION_ERROR
          | some comps =>
            match assertCompressedProofValue comps with
            | none => .error .PROOF_VERIFICATION_ERROR
            | some pv =>
              if f = .ANONYMOUS_HOLDER_BINDING ∧
                  (pv.lengthBBSMessages = none ∨ pv.lengthBBSMessages = some 0) then
                .error .PROOF_VERIFICATION_ERROR
              else if (f = .PSEUDONYM ∨ f = .HOLDER_BINDING_PSEUDONYM) ∧
                  (pv.nymDomain = none ∨ pv.pseudonym = none ∨
                   pv.lengthBBSMessages = none ∨ pv.lengthBBSMessages = some 0) then
                .error .PROOF_VERIFICATION_ERROR
              else .ok (pv.withFeature f)
      else .error .PROOF_VERIFICATION_ERROR
    | _ => .error .PROOF_VERIFICATION_ERROR

/-- A base proof value with the component byte lengths and the
feature-dependent entropy as the specification requires. -/
def BaseProofValue.Valid (v : BaseProofValue) : Prop :=
  v.bbsSignature.length = 80 ∧ v.bbsHeader.length = 64 ∧ v.publicKey.length = 96 ∧
  v.hmacKey.length = 32 ∧
  (if v.feature = .PSEUDONYM ∨ v.feature = .HOLDER_BINDING_PSEUDONYM then
    v.signerNymEntropy ≠ none
  else v.signerNymEntropy = none)

/-- A derived proof value with a canonical label map, non-negative
index arrays, and the feature-dependent fields as the specification
requires; the amended validity additionally requires a positive
lengthBBSMessages for the non-baseline features. -/
def DerivedProofValue.Valid (d : DerivedProofValue) : Prop :=
  (∃ entries : List (Nat × Nat), (entries.map Prod.fst).Nodup ∧
    d.labelMap = canonLabelMap entries) ∧
  d.mandatoryIndexes.all (fun n => 0 ≤ n) = true ∧
  d.selectiveIndexes.all (fun n => 0 ≤ n) = true ∧
  (match d.feature with
   | .BASELINE => d.nymDomain = none ∧ d.pseudonym = none ∧ d.lengthBBSMessages = none
   | .ANONYMOUS_HOLDER_BINDING => d.nymDomain = none ∧ d.pseudonym = none ∧
      ∃ L, d.lengthBBSMessages = some L ∧ 1 ≤ L
   | _ => d.nymDomain ≠ none ∧ d.pseudonym ≠ none ∧
      ∃ L, d.lengthBBSMessages = some L ∧ 1 ≤ L)

/-- A string accepted by parseBaseProofValue: it multibase-decodes, it
carries the d9 5d tag and an allowlisted feature byte, the rest
CBOR-decodes to a component array accepted by assertBaseProofValue, and
the pseudonym features carry an entropy component. -/
def ValidBaseStr (mc : MbCodec) (cc : CborCodec) (s : String) : Prop :=
  ∃ b2 rest f comps pv,
    mc.dec s = some (0xd9 :: 0x5d :: b2 :: rest) ∧
    baseFeatureOf b2 = some f ∧
    cc.dec rest = some comps ∧
    assertBaseProofValue comps = some pv ∧
    ((f = .PSEUDONYM ∨ f = .HOLDER_BINDING_PSEUDONYM) → pv.signerNymEntropy ≠ none)

/-- A string accepted by parseDerivedProofValue. -/
def ValidDerivedStr (mc : MbCodec) (cc : CborCodec) (s : String) : Prop :=
  ∃ b2 rest f comps pv,
    mc.dec s = some (0xd9 :: 0x5d :: b2 :: rest) ∧
    derivedFeatureOf b2 = some f ∧
    cc.dec rest = some comps ∧
    assertCompressedProofValue comps = some pv ∧
    (f = .ANONYMOUS_HOLDER_BINDING →
      ¬(pv.lengthBBSMessages = none ∨ pv.lengthBBSMessages = some 0)) ∧
    ((f = .PSEUDONYM ∨ f = .HOLDER_BINDING_PSEUDONYM) →
      ¬(pv.nymDomain = none ∨ pv.pseudonym = none ∨
        pv.lengthBBSMessages = none ∨ pv.lengthBBSMessages = some 0))

/-! ### Concrete witness codecs

Executable instances of the abstract codec collaborators, used to
evaluate the statements on concrete inputs. -/

/-- Decode a fixed count of strings. -/
def decStrs : Nat → List Nat → Option (List String × List Nat)
  | 0, bs => some ([], bs)
  | n + 1, bs =>
    (decStrB bs).bind fun p =>
      (decStrs n p.2).map fun q => (p.1 :: q.1, q.2)

/-- Decode a fixed count of integers. -/
def decInts : Nat → List Nat → Option (List Int × List Nat)
  | 0, bs => some ([], bs)
  | n + 1, bs =>
    (decIntB bs).bind fun p =>
      (decInts n p.2).map fun q => (p.1 :: q.1, q.2)

/-- Decode a fixed count of integer pairs. -/
def decPairs : Nat → List Nat → Option (List (Int × Int) × List Nat)
  | 0, bs => some ([], bs)
  | n + 1, bs =>
    (decIntB bs).bind fun p =>
      (decIntB p.2).bind fun q =>
        (decPairs n q.2).map fun r => ((p.1, q.1) :: r.1, r.2)

/-- Encode one component: a tag symbol, then the tagged payload. -/
def encComp : Comp → List Nat
  | .bytes bs => 0 :: encSeq bs
  | .strs ss => 1 :: (encNat ss.length ++ (ss.map encStrB).flatten)
  | .ints ns => 2 :: (encNat ns.length ++ (ns.map encIntB).flatten)
  | .imap m => 3 :: (encNat m.length ++ (m.map (fun p => encIntB p.1 ++ encIntB p.2)).flatten)
  | .num i => 4 :: encIntB i

/-- Decode one component. -/
def decComp : List Nat → Option (Comp × List Nat)
  | [] => none
  | t :: bs =>
    if t = 0 then (decSeq bs).map fun p => (Comp.bytes p.1, p.2)
    else if t = 1 then
      (decNat bs).bind fun p => (decStrs p.1 p.2).map fun q => (Comp.strs q.1, q.2)
    else if t = 2 then
      (decNat bs).bind fun p => (decInts p.1 p.2).map fun q => (Comp.ints q.1, q.2)
    else if t = 3 then
      (decNat bs).bind fun p => (decPairs p.1 p.2).map fun q => (Comp.imap q.1, q.2)
    else if t = 4 then (decIntB bs).map fun p => (Comp.num p.1, p.2)
    else none

/-- Decode a fixed count of components. -/
def decComps : Nat → List Nat → Option (List Comp × List Nat)
  | 0, bs => some ([], bs)
  | n + 1, bs =>
    (decComp bs).bind fun p =>
      (decComps n p.2).map fun q => (p.1 :: q.1, q.2)

/-- Concrete witness instance of the multibase-base64url-no-pad codec:
a u header followed by the symbol stream rendered as characters. -/
def mbWitness : MbCodec where
  enc b := String.mk ('u' :: (encSeq b).map digitChar)
  dec s :=
    match s.data with
    | 'u' :: cs =>
      match decSeq (cs.map digitVal) with
      | some (b, []) => some b
      | _ => none
    | _ => none

/-- Concrete witness instance of the CBOR codec: a length-prefixed
stream of tagged components. -/
def cborWitness : CborCodec where
  enc l := encNat l.length ++ (l.map encComp).flatten
  dec bs :=
    match decNat bs with
    | some (n, rest) =>
      match decComps n rest with
      | some (l, []) => some l
      | _ => none
    | none => none

/-! ### Key material codec (src/key/core.ts) -/

/-- Whether key material is private or public. -/
inductive Flag where
  | priv
  | pub
  deriving DecidableEq

/-- Required key material length (constant/suite.ts): 32-byte private
scalars, 96-byte compressed G2 public keys. -/
def KEY_MATERIAL_LENGTH : Flag → Nat
  | .pub => 96
  | .priv => 32

/-- Two-byte multicodec varint header (constant/prefix.ts): eb01 for
public keys, 8030 for private keys. -/
def MULTIBASE : Flag → List Nat
  | .pub => [0xeb, 0x01]
  | .priv => [0x80, 0x30]

/-- An EC-shaped JSON Web Key as the suite emits it. -/
structure JWKEC where
  kty : String
  use : String
  key_ops : List String
  alg : String
  ext : Bool
  crv : String
  x : String
  y : String
  d : Option String
  deriving DecidableEq

/-- Abstract base58btc codec (out-of-scope collaborator). -/
structure B58Codec where
  enc : List Nat → String
  dec : String → Option (List Nat)

/-- The codec decodes its own encodings. -/
def B58Codec.RoundTrip (c : B58Codec) : Prop := ∀ b, c.dec (c.enc b) = some b

/-- Abstract base64url codec for JWK fields (out-of-scope collaborator). -/
structure B64Codec where
  enc : List Nat → String
  dec : String → Option (List Nat)

/-- The codec decodes its own encodings. -/
def B64Codec.RoundTrip (c : B64Codec) : Prop := ∀ b, c.dec (c.enc b) = some b

/-- Encodings are never the empty string. -/
def B64Codec.NonEmptyEnc (c : B64Codec) : Prop := ∀ b, c.enc b ≠ ""

/-- The JS prefix check of multibaseToMaterial: every header byte must
equal the decoded byte at its index (an out-of-range index reads
undefined and fails). -/
def pfxMatches (pfx bs : List Nat) : Bool := bs.take pfx.length = pfx

/-- materialToMultibase (src/key/core.ts): validate the length, prepend
the two-byte multicodec header, base58btc-encode.  (Both flags carry a
header and a length in this suite, so the unsupported-flag branch is
unreachable.) -/
def materialToMultibase (bc : B58Codec) (material : List Nat) (flag : Flag) :
    Except Err String :=
  if material.length ≠ KEY_MATERIAL_LENGTH flag then .error .INVALID_KEYPAIR_LENGTH
  else .ok (bc.enc (MULTIBASE flag ++ material))

/-- multibaseToMaterial (src/key/core.ts): base58btc-decode, check the
multicodec header byte-for-byte, check the remainder length. -/
def multibaseToMaterial (bc : B58Codec) (multibase : String) (flag : Flag) :
    Except Err (List Nat) :=
  match bc.dec multibase with
  | none => .error .DECODING_ERROR
  | some bs =>
    if ¬ pfxMatches (MULTIBASE flag) bs then .error .DECODING_ERROR
    else
      let material := bs.drop (MULTIBASE flag).length
      if material.length ≠ KEY_MATERIAL_LENGTH flag then .error .INVALID_KEYPAIR_LENGTH
      else .ok material

/-- materialToJwk (src/key/core.ts): validate the length, then populate
the fixed JWK template, placing the base64url material in x (public) or
d (private). -/
def materialToJwk (b64 : B64Codec) (material : List Nat) (flag : Flag) :
    Except Err JWKEC :=
  if material.length ≠ KEY_MATERIAL_LENGTH flag then .error .INVALID_KEYPAIR_LENGTH
  else
    .ok { kty := "EC", use := "sig",
          key_ops := if flag = .priv then ["sign"] else ["verify"],
          alg := "BLS12_381G2", ext := true, crv := "BLS12_381G2",
          x := if flag = .pub then b64.enc material else "",
          y := "",
          d := if flag = .pub then none else some (b64.enc material) }

/-- jwkToMaterial (src/key/core.ts): check kty/use, alg/crv, key_ops
(exactly one entry, matching the flag), the required field, decode it
and check the length. -/
def jwkToMaterial (b64 : B64Codec) (jwk : JWKEC) (flag : Flag) :
    Except Err (List Nat) :=
  if jwk.kty ≠ "EC" ∨ jwk.use ≠ "sig" then .error .INVALID_KEYPAIR_CONTENT
  else if jwk.alg ≠ "BLS12_381G2" ∨ jwk.crv ≠ "BLS12_381G2" then
    .error .INVALID_KEYPAIR_CONTENT
  else
    let expectedOp := if flag = .pub then "verify" else "sign"
    if ¬ jwk.key_ops.contains expectedOp ∨ jwk.key_ops.length ≠ 1 then
      .error .INVALID_KEYPAIR_CONTENT
    else
      match (if flag = .pub then some jwk.x else jwk.d) with
      | none => .error .INVALID_KEYPAIR_CONTENT
      | some fv =>
        if fv = "" then .error .INVALID_KEYPAIR_CONTENT
        else
          match b64.dec fv with
          | none => .error .DECODING_ERROR
          | some material =>
            if material.length ≠ KEY_MATERIAL_LENGTH flag then
              .error .INVALID_KEYPAIR_LENGTH
            else .ok material

/-- Concrete witness instance of the base58btc codec. -/
def b58Witness : B58Codec where
  enc b := String.mk ((encSeq b).map digitChar)
  dec s :=
    match decSeq (s.data.map digitVal) with
    | some (b, []) => some b
    | _ => none

/-- Concrete witness instance of the base64url codec. -/
def b64Witness : B64Codec where
  enc b := String.mk ((encSeq b).map digitChar)
  dec s :=
    match decSeq (s.data.map digitVal) with
    | some (b, []) => some b
    | _ => none

/-! ### Keypair export (src/key/core.ts) -/

/-- A BLS12-381 G2 keypair instance: identifier, controller, the two
metadata dates (rendered as their timestamp strings), and optional key
material. -/
structure Keypair where
  id : Option String
  controller : Option String
  expires : Option String
  revoked : Option String
  privateKey : Option (List Nat)
  publicKey : Option (List Nat)
  deriving DecidableEq

/-- A verification method carrying Multikey-format keys. -/
structure VMMultibase where
  id : String
  type : String
  controller : String
  expires : Option String
  revoked : Option String
  secretKeyMultibase : Option String
  publicKeyMultibase : Option String
  deriving DecidableEq

/-- A verification method carrying JWK-format keys. -/
structure VMJwk where
  id : String
  type : String
  controller : String
  expires : Option String
  revoked : Option String
  secretKeyJwk : Option JWKEC
  publicKeyJwk : Option JWKEC
  deriving DecidableEq

/-- keypairToMultibase (src/key/core.ts): require id and controller;
the exported expires and revoked fields are both derived from the
keypair's revoked date (the keypair's own expires attribute is not
consulted); export the private key only for the private flag, the
public key whenever present, and fail when the flagged key is
missing.  The w3c parameter models toW3CTimestamp. -/
def keypairToMultibase (bc : B58Codec) (w3c : String → String) (kp : Keypair)
    (flag : Flag) : Except Err VMMultibase :=
  match kp.controller, kp.id with
  | some ctrl, some kid =>
    let mkDoc : Option String → Option String → VMMultibase := fun sk pk =>
      { id := kid, type := "Multikey", controller := ctrl,
        expires := kp.revoked.map w3c, revoked := kp.revoked.map w3c,
        secretKeyMultibase := sk, publicKeyMultibase := pk }
    match flag with
    | .priv =>
      match kp.privateKey with
      | none => .error .INVALID_KEYPAIR_CONTENT
      | some sk =>
        match materialToMultibase bc sk .priv with
        | .error e => .error e
        | .ok sstr =>
          match kp.publicKey with
          | some pk =>
            match materialToMultibase bc pk .pub with
            | .error e => .error e
            | .ok pstr => .ok (mkDoc (some sstr) (some pstr))
          | none => .ok (mkDoc (some sstr) none)
    | .pub =>
      match kp.publicKey with
      | some pk =>
        match materialToMultibase bc pk .pub with
        | .error e => .error e
        | .ok pstr => .ok (mkDoc none (some pstr))
      | none => .error .INVALID_KEYPAIR_CONTENT
  | _, _ => .error .INVALID_KEYPAIR_CONTENT

/-- keypairToJwk (src/key/core.ts): as keypairToMultibase but in JWK
format; when a public JWK is exported the identifier is overridden with
the controller plus the JWK thumbprint (the thumb parameter models
getJwkThumbprint). -/
def keypairToJwk (b64 : B64Codec) (w3c : String → String) (thumb : JWKEC → String)
    (kp : Keypair) (flag : Flag) : Except Err VMJwk :=
  match kp.controller, kp.id with
  | some ctrl, some kid =>
    let mkDoc : Option JWKEC → Option JWKEC → String → VMJwk := fun sk pk docId =>
      { id := docId, type := "JsonWebKey", controller := ctrl,
        expires := kp.revoked.map w3c, revoked := kp.revoked.map w3c,
        secretKeyJwk := sk, publicKeyJwk := pk }
    match flag with
    | .priv =>
      match kp.privateKey with
      | none => .error .INVALID_KEYPAIR_CONTENT
      | some sk =>
        match materialToJwk b64 sk .priv with
        | .error e => .error e
        | .ok sj =>
          match kp.publicKey with
          | some pk =>
            match materialToJwk b64 pk .pub with
            | .error e => .error e
            | .ok pj => .ok (mkDoc (some sj) (some pj) (ctrl ++ "#" ++ thumb pj))
          | none => .ok (mkDoc (some sj) none kid)
    | .pub =>
      match kp.publicKey with
      | some pk =>
        match materialToJwk b64 pk .pub with
        | .error e => .error e
        | .ok pj => .ok (mkDoc none (some pj) (ctrl ++ "#" ++ thumb pj))
      | none => .error .INVALID_KEYPAIR_CONTENT
  | _, _ => .error .INVALID_KEYPAIR_CONTENT


/-! ### Canonical grouping and the derivation pipeline (model)

RDF canonicalization, JSON-pointer selection and JSON-LD projection are
out-of-scope collaborators.  They are modelled by their documented
contract (spec section 4.3): a document canonicalizes to one ordered
statement list, each group is a filter of that list, and the revealed
document canonicalizes to exactly the selected statements in order. -/

/-- The canonical form of a document: each statement (canonical N-Quad)
paired with the JSON pointers that select it. -/
abbrev CanonDoc : Type := List (String × List String)

/-- The matching group of a pointer set: the statements selected by any
of the pointers, as an ordered map from global statement index to
N-Quad (canonicalizeAndGroup contract). -/
def matching (ptrs : List String) (doc : CanonDoc) : List (Nat × String) :=
  doc.enum.filterMap fun p =>
    if ptrs.any (fun q => q ∈ p.2.2) then some (p.1, p.2.1) else none

/-- The non-matching group of a pointer set. -/
def nonMatching (ptrs : List String) (doc : CanonDoc) : List (Nat × String) :=
  doc.enum.filterMap fun p =>
    if ptrs.any (fun q => q ∈ p.2.2) then none else some (p.1, p.2.1)

/-- The index computation of createDisclosureData as implemented
(selective/prepare.ts, steps 7 and 8): the keys of the combined
matching map filtered by membership in the mandatory matching map, and
the keys of the mandatory non-matching map filtered by membership in
the selective matching map — global statement indexes, not positions. -/
def disclosureIndexes (doc : CanonDoc)
    (mandatoryPointers selectivePointers : List String) : List Nat × List Nat :=
  let mandatoryMatch := matching mandatoryPointers doc
  let combinedMatch := matching (mandatoryPointers ++ selectivePointers) doc
  let selectiveMatch := matching selectivePointers doc
  let mandatoryNonMatch := nonMatching mandatoryPointers doc
  ((combinedMatch.map Prod.fst).filter
      (fun i => (mandatoryMatch.map Prod.fst).contains i),
   (mandatoryNonMatch.map Prod.fst).filter
      (fun i => (selectiveMatch.map Prod.fst).contains i))

/-- The index computation as the code's own procedure comment and the
specification describe it: the position (indexOf) of each mandatory key
within the ordered combined key list, and of each selective key within
the ordered non-mandatory key list. -/
def disclosureIndexesSpec (doc : CanonDoc)
    (mandatoryPointers selectivePointers : List String) : List Nat × List Nat :=
  let combinedKeys := (matching (mandatoryPointers ++ selectivePointers) doc).map Prod.fst
  let nonMandatoryKeys := (nonMatching mandatoryPointers doc).map Prod.fst
  (((matching mandatoryPointers doc).map Prod.fst).map (fun k => combinedKeys.indexOf k),
   ((matching selectivePointers doc).map Prod.fst).map (fun k => nonMandatoryKeys.indexOf k))

/-- The feature dispatch of createDisclosureData step 10 as implemented
(selective/prepare.ts): BASELINE calls the basic BBS ProofGen
collaborator; every other feature throws PROOF_GENERATION_ERROR
(unsupported feature option); no blind or pseudonym primitive is
invoked and no lengthBBSMessages is produced. -/
def disclosureBbsProof
    (prove : List Nat → List Nat → List Nat → List Nat → List String → List Nat → List Nat)
    (feature : Feature) (publicKey bbsSignature bbsHeader presentationHeader : List Nat)
    (bbsMessages : List String) (selectiveIndexes : List Nat) : Except Err (List Nat) :=
  match feature with
  | .BASELINE => .ok (prove publicKey bbsSignature bbsHeader presentationHeader
      bbsMessages selectiveIndexes)
  | _ => .error .PROOF_GENERATION_ERROR

/-! ### End-to-end model of issue, derive and verify (BASELINE)

SHA-256 and the BBS primitives are out-of-scope collaborators; the
model uses a deterministic 32-byte digest and represents a BBS proof as
an injective record of the values the proof binds (public key, header,
presentation header and disclosed index-message pairs), so that
ProofVerify holds exactly when the verifier reconstructs the same
record. -/

/-- Deterministic 32-byte digest standing in for SHA-256. -/
def hashStr (s : String) : List Nat :=
  List.replicate 30 0 ++
    [s.length % 256, s.data.foldl (fun a c => (a * 31 + c.toNat) % 256) 7]

/-- hashMandatoryNQuads collaborator: digest of the joined quads. -/
def hashMandatory (quads : List String) : List Nat := hashStr (String.join quads)

/-- Abstract BBS signature: an opaque 80-byte value. -/
def bbsSign (sk pk bbsHeader : List Nat) (messages : List String) : List Nat :=
  List.replicate 80 0

/-- The values a BBS disclosure proof binds, injectively encoded. -/
def encodeProofRecord (pk bbsHeader ph : List Nat)
    (disclosed : List (Nat × String)) : List Nat :=
  encSeq pk ++ encSeq bbsHeader ++ encSeq ph ++
  encNat disclosed.length ++ (disclosed.map (fun p => encNat p.1 ++ encStrB p.2)).flatten

/-- Abstract BBS ProofGen: records the disclosed pairs. -/
def bbsProofGen (pk sig bbsHeader ph : List Nat) (messages : List String)
    (disclosedIndexes : List Nat) : List Nat :=
  encodeProofRecord pk bbsHeader ph
    (disclosedIndexes.map (fun i => (i, messages.getD i "")))

/-- Abstract BBS ProofVerify: the proof must equal the record the
verifier reconstructs from its own data. -/
def bbsProofVerify (pk proof bbsHeader ph : List Nat)
    (disclosedMessages : List String) (disclosedIndexes : List Nat) : Bool :=
  proof = encodeProofRecord pk bbsHeader ph (disclosedIndexes.zip disclosedMessages)

/-- The issuer path (suite/core.ts transform, hash and serialize,
BASELINE): group-canonicalize under the mandatory pointers, hash the
canonical proof configuration pc and the joined mandatory quads, sign
the non-mandatory quads, serialize the base proof value. -/
def issueBase (mc : MbCodec) (cc : CborCodec) (doc : CanonDoc)
    (mandatoryPointers : List String) (sk pk hmacKey : List Nat) (pc : String) :
    Except Err String :=
  let mand := matching mandatoryPointers doc
  let nonMand := nonMatching mandatoryPointers doc
  let proofHash := hashStr pc
  let mandatoryHash := hashMandatory (mand.map Prod.snd)
  let bbsHeader := proofHash ++ mandatoryHash
  let bbsMessages := nonMand.map Prod.snd
  serializeBaseProofValue mc cc
    { bbsSignature := bbsSign sk pk bbsHeader bbsMessages, bbsHeader := bbsHeader,
      publicKey := pk, hmacKey := hmacKey,
      mandatoryPointers := mandatoryPointers, feature := .BASELINE }

/-- selectJsonLd collaborator: the revealed document keeps exactly the
selected statements. -/
def selectJsonLd (ptrs : List String) (doc : CanonDoc) : CanonDoc :=
  doc.filter (fun p => ptrs.any (fun q => q ∈ p.2))

/-- The holder path (createDisclosureData and
serializeDerivedProofValue, BASELINE): parse the base proof, regroup,
compute the index arrays as the code does, run ProofGen over the
non-mandatory quads, build the revealed document; the model
canonicalization uses no blank-node labels, so the label map is
empty. -/
def deriveBase (mc : MbCodec) (cc : CborCodec) (doc : CanonDoc)
    (proofValue : String) (selectivePointers : List String)
    (presentationHeader : List Nat) : Except Err (String × CanonDoc) :=
  match parseBaseProofValue mc cc proofValue with
  | .error e => .error e
  | .ok base =>
    let p := disclosureIndexes doc base.mandatoryPointers selectivePointers
    let bbsMessages := (nonMatching base.mandatoryPointers doc).map Prod.snd
    let bbsProof := bbsProofGen base.publicKey base.bbsSignature base.bbsHeader
      presentationHeader bbsMessages p.2
    let revealDoc := selectJsonLd (base.mandatoryPointers ++ selectivePointers) doc
    match serializeDerivedProofValue mc cc
      { bbsProof := bbsProof, labelMap := [],
        mandatoryIndexes := p.1.map (fun n => (n : Int)),
        selectiveIndexes := p.2.map (fun n => (n : Int)),
        presentationHeader := presentationHeader, feature := .BASELINE } with
    | .error e => .error e
    | .ok s => .ok (s, revealDoc)

/-- The holder path with the index computation the specification and
the code's own procedure comment prescribe (positions instead of global
indexes); used to compare the implemented behavior against the
specified one. -/
def deriveBaseSpec (mc : MbCodec) (cc : CborCodec) (doc : CanonDoc)
    (proofValue : String) (selectivePointers : List String)
    (presentationHeader : List Nat) : Except Err (String × CanonDoc) :=
  match parseBaseProofValue mc cc proofValue with
  | .error e => .error e
  | .ok base =>
    let p := disclosureIndexesSpec doc base.mandatoryPointers selectivePointers
    let bbsMessages := (nonMatching base.mandatoryPointers doc).map Prod.snd
    let bbsProof := bbsProofGen base.publicKey base.bbsSignature base.bbsHeader
      presentationHeader bbsMessages p.2
    let revealDoc := selectJsonLd (base.mandatoryPointers ++ selectivePointers) doc
    match serializeDerivedProofValue mc cc
      { bbsProof := bbsProof, labelMap := [],
        mandatoryIndexes := p.1.map (fun n => (n : Int)),
        selectiveIndexes := p.2.map (fun n => (n : Int)),
        presentationHeader := presentationHeader, feature := .BASELINE } with
    | .error e => .error e
    | .ok s => .ok (s, revealDoc)

/-- Modelled from the spec: the section 4.7 verification pipeline.  The
verify entry point in suite/core.ts is a stub (its body is commented
out), so step 5 and the BASELINE case of step 6 follow the
specification and the function's own procedure comment; the
createVerifyData part (parse, partition by mandatoryIndexes, hash) is
in the source (selective/prepare.ts). -/
def verifySpec (mc : MbCodec) (cc : CborCodec) (revealDoc : CanonDoc)
    (proofValue : String) (pk : List Nat) (pc : String) : Except Err Bool :=
  match parseDerivedProofValue mc cc proofValue with
  | .error e => .error e
  | .ok d =>
    let proofHash := hashStr pc
    let nQuads := revealDoc.map Prod.fst
    let mandatory := (nQuads.enum.filter
      (fun p => d.mandatoryIndexes.contains ((p.1 : Int)))).map Prod.snd
    let nonMandatory := (nQuads.enum.filter
      (fun p => !(d.mandatoryIndexes.contains ((p.1 : Int))))).map Prod.snd
    let mandatoryHash := hashMandatory mandatory
    let bbsHeader := proofHash ++ mandatoryHash
    .ok (bbsProofVerify pk d.bbsProof bbsHeader d.presentationHeader nonMandatory
      (d.selectiveIndexes.map Int.toNat))

end VcBbs

namespace VcBbs

/-! ## Theorems -/

theorem digitVal_digitChar {d : Nat} (h : d < 12) : digitVal (digitChar d) = d := by
  interval_cases d <;> decide

theorem digitsAuxM_eq {fuel n : Nat} (h : n ≤ fuel) :
    digitsAuxM fuel n = Nat.digits 10 n := by
  induction fuel generalizing n with
  | zero =>
    have : n = 0 := Nat.le_zero.mp h
    subst this
    simp [digitsAuxM]
  | succ fuel ih =>
    cases n with
    | zero => simp [digitsAuxM]
    | succ m =>
      have hdiv : (m + 1) / 10 ≤ fuel := by
        have h1 : (m + 1) / 10 < m + 1 := Nat.div_lt_self (Nat.succ_pos m) (by norm_num)
        omega
      rw [show digitsAuxM (fuel + 1) (m + 1) =
          (m + 1) % 10 :: digitsAuxM fuel ((m + 1) / 10) from rfl]
      rw [ih hdiv, Nat.digits_def' (by norm_num : (1 : ℕ) < 10) (Nat.succ_pos m)]

theorem digitsM_eq (n : Nat) : digitsM n = Nat.digits 10 n :=
  digitsAuxM_eq (Nat.le_refl n)

theorem splitSym_append {ds : List Nat} (h : ∀ d ∈ ds, d ≠ 10) (rest : List Nat) :
    splitSym (ds ++ 10 :: rest) = some (ds, rest) := by
  induction ds with
  | nil => simp [splitSym]
  | cons d t ih =>
    have hd : d ≠ 10 := h d (List.mem_cons_self d t)
    have ht : ∀ x ∈ t, x ≠ 10 := fun x hx => h x (List.mem_cons_of_mem d hx)
    simp [splitSym, hd, ih ht]

theorem decNat_encNat (n : Nat) (rest : List Nat) :
    decNat (encNat n ++ rest) = some (n, rest) := by
  have hlt : ∀ d ∈ Nat.digits 10 n, d ≠ 10 := by
    intro d hd
    exact Nat.ne_of_lt (Nat.digits_lt_base (by norm_num) hd)
  have : encNat n ++ rest = Nat.digits 10 n ++ 10 :: rest := by
    simp [encNat, digitsM_eq]
  rw [this, decNat, splitSym_append hlt]
  simp [Nat.ofDigits_digits]

theorem decNats_append (l : List Nat) (rest : List Nat) :
    decNats l.length ((l.map encNat).flatten ++ rest) = some (l, rest) := by
  induction l generalizing rest with
  | nil => simp [decNats]
  | cons x t ih =>
    simp only [List.map_cons, List.flatten, List.length_cons, List.append_assoc]
    simp [decNats, decNat_encNat, ih]

theorem decSeq_encSeq (l : List Nat) (rest : List Nat) :
    decSeq (encSeq l ++ rest) = some (l, rest) := by
  simp only [encSeq, List.append_assoc, decSeq]
  rw [decNat_encNat]
  simpa using decNats_append l rest

theorem decIntB_encIntB (i : Int) (rest : List Nat) :
    decIntB (encIntB i ++ rest) = some (i, rest) := by
  cases i with
  | ofNat n => simp [encIntB, decIntB, decNat_encNat]
  | negSucc n => simp [encIntB, decIntB, decNat_encNat]

theorem decStrB_encStrB (s : String) (rest : List Nat) :
    decStrB (encStrB s ++ rest) = some (s, rest) := by
  have h2 : ∀ l : List Char, (l.map Char.toNat).map Char.ofNat = l := by
    intro l
    rw [List.map_map]
    have : (Char.ofNat ∘ Char.toNat) = id := by
      funext c
      simp [Function.comp, Char.ofNat_toNat]
    rw [this, List.map_id]
  simp [encStrB, decStrB, decSeq_encSeq, h2]

theorem digitChar_isDigit {d : Nat} (h : d < 10) :
    (digitChar d).isDigit = true ∧ (digitChar d).toNat - 48 = d ∧
    ¬(digitChar d).isWhitespace ∧ digitChar d ≠ '-' ∧ digitChar d ≠ '+' := by
  interval_cases d <;> exact ⟨by decide, by decide, by decide, by decide, by decide⟩

theorem takeDigits_all {cs : List Char} (h : ∀ c ∈ cs, c.isDigit) :
    takeDigits cs = (cs.map (fun c => c.toNat - 48), []) := by
  induction cs with
  | nil => simp [takeDigits]
  | cons c t ih =>
    have hc : c.isDigit := h c (List.mem_cons_self c t)
    have ht : ∀ x ∈ t, x.isDigit := fun x hx => h x (List.mem_cons_of_mem c hx)
    simp [takeDigits, hc, ih ht]

theorem foldl_digits (l : List Nat) (a : Nat) :
    l.foldl (fun a d => a * 10 + d) a = a * 10 ^ l.length + Nat.ofDigits 10 l.reverse := by
  induction l generalizing a with
  | nil => simp [Nat.ofDigits]
  | cons d t ih =>
    simp only [List.foldl_cons, List.reverse_cons, List.length_cons]
    rw [ih, Nat.ofDigits_append]
    simp [Nat.ofDigits]
    ring

theorem parseIntJS_natStr (n : Nat) : parseIntJS (natStr n) = some (n : Int) := by
  by_cases h0 : n = 0
  · subst h0
    decide
  · have hne : Nat.digits 10 n ≠ [] := by
      simpa [Nat.digits_ne_nil_iff_ne_zero] using h0
    have hdig : ∀ d ∈ (Nat.digits 10 n).reverse, d < 10 := by
      intro d hd
      exact Nat.digits_lt_base (by norm_num) (List.mem_reverse.mp hd)
    set ds := (Nat.digits 10 n).reverse with hds
    have hnatStr : natStr n = String.mk (ds.map digitChar) := by
      simp [natStr, h0, hds, digitsM_eq]
    have hchars : ∀ c ∈ ds.map digitChar, c.isDigit := by
      intro c hc
      rcases List.mem_map.mp hc with ⟨d, hd, rfl⟩
      exact (digitChar_isDigit (hdig d hd)).1
    obtain ⟨dh, dt, hcons⟩ : ∃ dh dt, ds = dh :: dt := by
      cases hd : ds with
      | nil =>
        exact absurd (by simpa [hds, List.reverse_eq_nil_iff] using hd) hne
      | cons a b => exact ⟨a, b, rfl⟩
    have hd0 : dh < 10 := hdig dh (hcons ▸ List.mem_cons_self dh dt)
    rw [hnatStr, parseIntJS]
    have hdata : (String.mk (ds.map digitChar)).data = ds.map digitChar := rfl
    simp only [hdata, hcons, List.map_cons]
    have hfacts := digitChar_isDigit hd0
    rw [List.dropWhile_cons_of_neg (by simpa using hfacts.2.2.1)]
    rw [show stripSign (digitChar dh :: dt.map digitChar) =
        (false, digitChar dh :: dt.map digitChar) by
      simp [stripSign, hfacts.2.2.2.1, hfacts.2.2.2.2]]
    rw [show takeDigits (digitChar dh :: dt.map digitChar) =
        ((digitChar dh :: dt.map digitChar).map (fun c => c.toNat - 48), []) from
      takeDigits_all (by rw [← List.map_cons, ← hcons]; exact hchars)]
    have hvals : (digitChar dh :: dt.map digitChar).map (fun c => c.toNat - 48) = ds := by
      rw [← List.map_cons, ← hcons, List.map_map]
      have : ∀ d ∈ ds, ((fun c => c.toNat - 48) ∘ digitChar) d = id d := by
        intro d hd
        simpa [Function.comp] using (digitChar_isDigit (hdig d hd)).2.1
      rw [List.map_congr_left this, List.map_id]
    rw [hvals]
    have hnonempty : ds.isEmpty = false := by
      simp [hcons]
    simp only [hnonempty, Bool.false_eq_true, if_false, reduceIte]
    rw [foldl_digits]
    simp [hds, Nat.ofDigits_digits]

theorem natStr_inj {a b : Nat} (h : natStr a = natStr b) : a = b := by
  have ha := parseIntJS_natStr a
  have hb := parseIntJS_natStr b
  rw [h, hb] at ha
  have : (a : Int) = (b : Int) := by
    injection ha.symm
  exact_mod_cast this

theorem startsWithM_append (p s : String) : startsWithM (p ++ s) p = true := by
  unfold startsWithM
  rw [String.data_append, List.isPrefixOf_iff_prefix]
  exact List.prefix_append _ _

theorem stripPfx_append (p s : String) : stripPfx (p ++ s) p.data.length = s := by
  unfold stripPfx
  rw [String.data_append, List.drop_left]

theorem strApp_right_inj {p s t : String} (h : p ++ s = p ++ t) : s = t := by
  apply String.ext
  have hd : p.data ++ s.data = p.data ++ t.data := by
    rw [← String.data_append, ← String.data_append, h]
  exact List.append_cancel_left hd

theorem compressEntry_canonical (n k : Nat) :
    compressEntry ("c14n" ++ natStr n) ("b" ++ natStr k) = .ok ((n : Int), (k : Int)) := by
  have h3 : stripPfx ("c14n" ++ natStr n) 4 = natStr n := by
    have h := stripPfx_append "c14n" (natStr n)
    rwa [show ("c14n" : String).data.length = 4 from rfl] at h
  have h4 : stripPfx ("b" ++ natStr k) 1 = natStr k := by
    have h := stripPfx_append "b" (natStr k)
    rwa [show ("b" : String).data.length = 1 from rfl] at h
  simp [compressEntry, startsWithM_append, h3, h4, parseIntJS_natStr]

theorem insertKV_fresh {α β : Type} [DecidableEq α] (l : List (α × β)) (k : α) (v : β)
    (h : ∀ p ∈ l, p.1 ≠ k) : insertKV l k v = l ++ [(k, v)] := by
  unfold insertKV
  rw [if_neg]
  intro hc
  rw [List.any_eq_true] at hc
  obtain ⟨p, hp, hpk⟩ := hc
  exact h p hp (by simpa using hpk)

theorem compressAux_canonical (entries : List (Nat × Nat)) (acc : List (Int × Int))
    (hfresh : ∀ p ∈ entries, ∀ q ∈ acc, q.1 ≠ (p.1 : Int))
    (hnd : (entries.map Prod.fst).Nodup) :
    compressAux acc (canonLabelMap entries) =
      .ok (acc ++ entries.map (fun p => ((p.1 : Int), (p.2 : Int)))) := by
  induction entries generalizing acc with
  | nil => simp [canonLabelMap, compressAux]
  | cons e t ih =>
    obtain ⟨n, k⟩ := e
    have hfr : ∀ q ∈ acc, q.1 ≠ ((n : Nat) : Int) :=
      fun q hq => hfresh (n, k) (List.mem_cons_self _ _) q hq
    have hstep : insertKV acc (n : Int) (k : Int) = acc ++ [((n : Int), (k : Int))] :=
      insertKV_fresh acc _ _ hfr
    have hnd' : (t.map Prod.fst).Nodup := (List.nodup_cons.mp (by simpa using hnd)).2
    have hninT : (n : Nat) ∉ t.map Prod.fst := (List.nodup_cons.mp (by simpa using hnd)).1
    have hfresh' : ∀ p ∈ t, ∀ q ∈ acc ++ [((n : Int), (k : Int))], q.1 ≠ (p.1 : Int) := by
      intro p hp q hq
      rcases List.mem_append.mp hq with hq | hq
      · exact hfresh p (List.mem_cons_of_mem _ hp) q hq
      · have : q = ((n : Int), (k : Int)) := List.mem_singleton.mp hq
        subst this
        simp only [ne_eq, Nat.cast_inj]
        intro hcontra
        exact hninT (hcontra ▸ List.mem_map_of_mem Prod.fst hp)
    have := ih (acc ++ [((n : Int), (k : Int))]) hfresh' hnd'
    simp only [canonLabelMap, List.map_cons] at this ⊢
    rw [show compressAux acc (("c14n" ++ natStr n, "b" ++ natStr k) ::
        t.map (fun p => ("c14n" ++ natStr p.1, "b" ++ natStr p.2))) =
        match compressEntry ("c14n" ++ natStr n) ("b" ++ natStr k) with
        | .ok p => compressAux (insertKV acc p.1 p.2)
            (t.map (fun p => ("c14n" ++ natStr p.1, "b" ++ natStr p.2)))
        | .error e => .error e from rfl]
    rw [compressEntry_canonical]
    show compressAux (insertKV acc (n : Int) (k : Int))
        (t.map (fun p => ("c14n" ++ natStr p.1, "b" ++ natStr p.2))) = _
    rw [hstep, this]
    simp


theorem decompressAux_canonical (entries : List (Nat × Nat)) (acc : List (String × String))
    (hfresh : ∀ p ∈ entries, ∀ q ∈ acc, q.1 ≠ "c14n" ++ natStr p.1)
    (hnd : (entries.map Prod.fst).Nodup) :
    decompressAux acc (entries.map (fun p => ((p.1 : Int), (p.2 : Int)))) =
      acc ++ canonLabelMap entries := by
  induction entries generalizing acc with
  | nil => simp [canonLabelMap, decompressAux]
  | cons e t ih =>
    obtain ⟨n, k⟩ := e
    have hint : intStr ((n : Nat) : Int) = natStr n := rfl
    have hint2 : intStr ((k : Nat) : Int) = natStr k := rfl
    have hfr : ∀ q ∈ acc, q.1 ≠ "c14n" ++ natStr n :=
      fun q hq => hfresh (n, k) (List.mem_cons_self _ _) q hq
    have hstep : insertKV acc ("c14n" ++ intStr (n : Int)) ("b" ++ intStr (k : Int)) =
        acc ++ [("c14n" ++ natStr n, "b" ++ natStr k)] := by
      rw [hint, hint2]
      exact insertKV_fresh acc _ _ hfr
    have hnd' : (t.map Prod.fst).Nodup := (List.nodup_cons.mp (by simpa using hnd)).2
    have hninT : (n : Nat) ∉ t.map Prod.fst := (List.nodup_cons.mp (by simpa using hnd)).1
    have hfresh' : ∀ p ∈ t, ∀ q ∈ acc ++ [("c14n" ++ natStr n, "b" ++ natStr k)],
        q.1 ≠ "c14n" ++ natStr p.1 := by
      intro p hp q hq
      rcases List.mem_append.mp hq with hq | hq
      · exact hfresh p (List.mem_cons_of_mem _ hp) q hq
      · have : q = ("c14n" ++ natStr n, "b" ++ natStr k) := List.mem_singleton.mp hq
        subst this
        intro hcontra
        have : n = p.1 := natStr_inj (strApp_right_inj hcontra)
        exact hninT (this ▸ List.mem_map_of_mem Prod.fst hp)
    have := ih (acc ++ [("c14n" ++ natStr n, "b" ++ natStr k)]) hfresh' hnd'
    simp only [List.map_cons]
    rw [show decompressAux acc (((n : Int), (k : Int)) ::
        t.map (fun p => ((p.1 : Int), (p.2 : Int)))) =
        decompressAux (insertKV acc ("c14n" ++ intStr (n : Int)) ("b" ++ intStr (k : Int)))
          (t.map (fun p => ((p.1 : Int), (p.2 : Int)))) from rfl]
    rw [hstep, this]
    simp [canonLabelMap]

/-- C7: for every label map whose keys are c14n plus a base-10 numeral
and whose values are b plus a base-10 numeral (canonical decimal
renderings of naturals, with distinct keys as in a JS Map),
compressLabelMap yields exactly the numeric pairs and
decompressLabelMap maps them back, so the composition is the
identity; the concrete S6 instances are obtained in the witness. -/
theorem claim_C7_label_map_roundtrip (entries : List (Nat × Nat))
    (hnd : (entries.map Prod.fst).Nodup) :
    compressLabelMap (canonLabelMap entries) =
        .ok (entries.map (fun p => ((p.1 : Int), (p.2 : Int)))) ∧
    decompressLabelMap (entries.map (fun p => ((p.1 : Int), (p.2 : Int)))) =
        canonLabelMap entries := by
  constructor
  · exact compressAux_canonical entries [] (by simp) hnd
  · simpa using decompressAux_canonical entries [] (by simp) hnd

/-- Witness for C7 at the concrete S6 inputs. -/
theorem claim_C7_label_map_roundtrip_witness :
    compressLabelMap [("c14n0", "b3"), ("c14n2", "b0")] = .ok [(0, 3), (2, 0)] ∧
    decompressLabelMap [(0, 3), (2, 0)] = [("c14n0", "b3"), ("c14n2", "b0")] ∧
    compressLabelMap [("c14n0", "b3")] = .ok [(0, 3)] := by
  have h1 := claim_C7_label_map_roundtrip [(0, 3), (2, 0)] (by decide)
  have h2 := claim_C7_label_map_roundtrip [(0, 3)] (by decide)
  have e1 : canonLabelMap [(0, 3), (2, 0)] = [("c14n0", "b3"), ("c14n2", "b0")] := by decide
  have e2 : canonLabelMap [(0, 3)] = [("c14n0", "b3")] := by decide
  have e3 : ([(0, 3), (2, 0)] : List (Nat × Nat)).map
      (fun p => ((p.1 : Int), (p.2 : Int))) = [(0, 3), (2, 0)] := by decide
  have e4 : ([(0, 3)] : List (Nat × Nat)).map
      (fun p => ((p.1 : Int), (p.2 : Int))) = [(0, 3)] := by decide
  refine ⟨?_, ?_, ?_⟩
  · have := h1.1
    rwa [e1, e3] at this
  · have := h1.2
    rwa [e1, e3] at this
  · have := h2.1
    rwa [e2, e4] at this

theorem compressEntry_good {k v : String} (h : goodEntry k v) :
    compressEntry k v = .ok (parsedEntry k v) := by
  obtain ⟨h1, h2, h3, h4⟩ := h
  obtain ⟨i, hi⟩ := Option.isSome_iff_exists.mp h3
  obtain ⟨d, hd⟩ := Option.isSome_iff_exists.mp h4
  simp [compressEntry, h1, h2, hi, hd, parsedEntry]

theorem compressEntry_bad {k v : String} (h : ¬ goodEntry k v) :
    compressEntry k v = .error .PROOF_GENERATION_ERROR := by
  unfold compressEntry
  by_cases h1 : startsWithM k "c14n" = true
  · by_cases h2 : startsWithM v "b" = true
    · rcases hi : parseIntJS (stripPfx k 4) with _ | i
      · simp [h1, h2, hi]
      · rcases hd : parseIntJS (stripPfx v 1) with _ | d
        · simp [h1, h2, hi, hd]
        · exact absurd ⟨h1, h2, by simp [hi], by simp [hd]⟩ h
    · simp [h1, h2]
  · simp [h1]

theorem compressAux_all_good (m : List (String × String)) (acc : List (Int × Int))
    (h : ∀ e ∈ m, goodEntry e.1 e.2) :
    compressAux acc m =
      .ok (m.foldl (fun a e => insertKV a (parsedEntry e.1 e.2).1 (parsedEntry e.1 e.2).2) acc) := by
  induction m generalizing acc with
  | nil => simp [compressAux]
  | cons e t ih =>
    obtain ⟨k, v⟩ := e
    have hk : goodEntry k v := h (k, v) (List.mem_cons_self _ _)
    have ht : ∀ x ∈ t, goodEntry x.1 x.2 := fun x hx => h x (List.mem_cons_of_mem _ hx)
    rw [show compressAux acc ((k, v) :: t) =
        match compressEntry k v with
        | .ok p => compressAux (insertKV acc p.1 p.2) t
        | .error e => .error e from rfl]
    rw [compressEntry_good hk]
    show compressAux (insertKV acc (parsedEntry k v).1 (parsedEntry k v).2) t = _
    rw [ih _ ht]
    rfl

theorem compressAux_has_bad (m : List (String × String)) (acc : List (Int × Int))
    (h : ∃ e ∈ m, ¬ goodEntry e.1 e.2) :
    compressAux acc m = .error .PROOF_GENERATION_ERROR := by
  induction m generalizing acc with
  | nil => simp at h
  | cons e t ih =>
    obtain ⟨k, v⟩ := e
    by_cases hk : goodEntry k v
    · have hbad : ∃ x ∈ t, ¬ goodEntry x.1 x.2 := by
        obtain ⟨x, hx, hxg⟩ := h
        rcases List.mem_cons.mp hx with rfl | hx
        · exact absurd hk hxg
        · exact ⟨x, hx, hxg⟩
      rw [show compressAux acc ((k, v) :: t) =
          match compressEntry k v with
          | .ok p => compressAux (insertKV acc p.1 p.2) t
          | .error e => .error e from rfl]
      rw [compressEntry_good hk]
      exact ih _ hbad
    · rw [show compressAux acc ((k, v) :: t) =
          match compressEntry k v with
          | .ok p => compressAux (insertKV acc p.1 p.2) t
          | .error e => .error e from rfl]
      rw [compressEntry_bad hk]

/-- C8 (amended): compressLabelMap fails with PROOF_GENERATION_ERROR
exactly when some entry has a key not starting with c14n, a value not
starting with b, or a suffix on which base-10 parseInt yields NaN (no
leading integer); otherwise it returns the JS map of the parsed integer
pairs.  A suffix that merely contains trailing non-digits (such as
12x) parses to its leading integer and is accepted. -/
theorem claim_C8_compress_errors (m : List (String × String)) :
    ((∃ e ∈ m, ¬ goodEntry e.1 e.2) →
      compressLabelMap m = .error .PROOF_GENERATION_ERROR) ∧
    ((∀ e ∈ m, goodEntry e.1 e.2) →
      compressLabelMap m = .ok (buildMap (m.map (fun e => parsedEntry e.1 e.2)))) := by
  constructor
  · intro h
    exact compressAux_has_bad m [] h
  · intro h
    rw [compressLabelMap, compressAux_all_good m [] h]
    rw [buildMap, List.foldl_map]

/-- Counterexample to C8 as stated: the entry key c14n12x has the
suffix 12x, which is not a base-10 integer (it contains a non-digit),
yet compressLabelMap succeeds, returning the pair (12, 0) obtained from
the leading digits. -/
theorem claim_C8_counterexample :
    compressLabelMap [("c14n12x", "b0")] = .ok [(12, 0)] ∧
    (stripPfx "c14n12x" 4).data.all Char.isDigit = false := by
  constructor
  · rfl
  · decide

/-- Witness for C8 at concrete inputs: a bad-prefix entry fails, a
well-formed map compresses to its parsed pairs. -/
theorem claim_C8_compress_errors_witness :
    compressLabelMap [("c14nA", "b0")] = .error .PROOF_GENERATION_ERROR ∧
    compressLabelMap [("c14n5", "b7")] = .ok [(5, 7)] := by
  constructor
  · exact (claim_C8_compress_errors [("c14nA", "b0")]).1
      ⟨("c14nA", "b0"), by decide, by decide⟩
  · have h := (claim_C8_compress_errors [("c14n5", "b7")]).2 (by decide)
    rwa [show buildMap ([("c14n5", "b7")].map (fun e => parsedEntry e.1 e.2)) =
        [(5, 7)] from by decide] at h

theorem decStrs_append (ss : List String) (rest : List Nat) :
    decStrs ss.length ((ss.map encStrB).flatten ++ rest) = some (ss, rest) := by
  induction ss generalizing rest with
  | nil => simp [decStrs]
  | cons x t ih =>
    simp only [List.map_cons, List.flatten, List.length_cons, List.append_assoc]
    simp [decStrs, decStrB_encStrB, ih]

theorem decInts_append (ns : List Int) (rest : List Nat) :
    decInts ns.length ((ns.map encIntB).flatten ++ rest) = some (ns, rest) := by
  induction ns generalizing rest with
  | nil => simp [decInts]
  | cons x t ih =>
    simp only [List.map_cons, List.flatten, List.length_cons, List.append_assoc]
    simp [decInts, decIntB_encIntB, ih]

theorem decPairs_append (m : List (Int × Int)) (rest : List Nat) :
    decPairs m.length ((m.map (fun p => encIntB p.1 ++ encIntB p.2)).flatten ++ rest) =
      some (m, rest) := by
  induction m generalizing rest with
  | nil => simp [decPairs]
  | cons x t ih =>
    simp only [List.map_cons, List.flatten, List.length_cons, List.append_assoc]
    simp [decPairs, decIntB_encIntB, ih]

theorem decComp_encComp (c : Comp) (rest : List Nat) :
    decComp (encComp c ++ rest) = some (c, rest) := by
  cases c with
  | bytes bs => simp [encComp, decComp, decSeq_encSeq]
  | strs ss =>
    simp only [encComp, List.cons_append, List.append_assoc]
    simp [decComp, decNat_encNat, decStrs_append]
  | ints ns =>
    simp only [encComp, List.cons_append, List.append_assoc]
    simp [decComp, decNat_encNat, decInts_append]
  | imap m =>
    simp only [encComp, List.cons_append, List.append_assoc]
    simp [decComp, decNat_encNat, decPairs_append]
  | num i => simp [encComp, decComp, decIntB_encIntB]

theorem decComps_append (l : List Comp) (rest : List Nat) :
    decComps l.length ((l.map encComp).flatten ++ rest) = some (l, rest) := by
  induction l generalizing rest with
  | nil => simp [decComps]
  | cons x t ih =>
    simp only [List.map_cons, List.flatten, List.length_cons, List.append_assoc]
    simp [decComps, decComp_encComp, ih]

theorem encNat_lt (n : Nat) : ∀ x ∈ encNat n, x < 12 := by
  intro x hx
  rcases List.mem_append.mp hx with hx | hx
  · have : x < 10 := by
      rw [digitsM_eq] at hx
      exact Nat.digits_lt_base (by norm_num) hx
    omega
  · have : x = 10 := List.mem_singleton.mp hx
    omega

theorem encSeq_lt (l : List Nat) : ∀ x ∈ encSeq l, x < 12 := by
  intro x hx
  rcases List.mem_append.mp hx with hx | hx
  · exact encNat_lt _ x hx
  · rcases List.mem_flatten.mp hx with ⟨s, hs, hxs⟩
    rcases List.mem_map.mp hs with ⟨n, _, rfl⟩
    exact encNat_lt n x hxs

theorem mbWitness_RoundTrip : mbWitness.RoundTrip := by
  intro b
  show (match (String.mk ('u' :: (encSeq b).map digitChar)).data with
    | 'u' :: cs =>
      match decSeq (cs.map digitVal) with
      | some (v, []) => some v
      | _ => none
    | _ => none) = some b
  have hdata : (String.mk ('u' :: (encSeq b).map digitChar)).data =
      'u' :: (encSeq b).map digitChar := rfl
  rw [hdata]
  have hsyms : ((encSeq b).map digitChar).map digitVal = encSeq b := by
    rw [List.map_map]
    have : ∀ x ∈ encSeq b, (digitVal ∘ digitChar) x = id x := by
      intro x hx
      simpa [Function.comp] using digitVal_digitChar (encSeq_lt b x hx)
    rw [List.map_congr_left this, List.map_id]
  simp only [hsyms]
  have := decSeq_encSeq b []
  rw [List.append_nil] at this
  simp [this]

theorem mbWitness_RejectsNonU : mbWitness.RejectsNonU := by
  intro s hs
  show (match s.data with
    | 'u' :: cs =>
      match decSeq (cs.map digitVal) with
      | some (v, []) => some v
      | _ => none
    | _ => none) = none
  cases hd : s.data with
  | nil => rfl
  | cons c cs =>
    have hc : c ≠ 'u' := by
      intro hcontra
      exact hs (by simp [hd, hcontra])
    cases c with
    | mk val valid =>
      by_cases hval : Char.mk val valid = 'u'
      · exact absurd hval hc
      · simp [hval]

theorem cborWitness_RoundTrip : cborWitness.RoundTrip := by
  intro l
  show (match decNat (encNat l.length ++ (l.map encComp).flatten) with
    | some (n, rest) =>
      match decComps n rest with
      | some (v, []) => some v
      | _ => none
    | none => none) = some l
  rw [decNat_encNat]
  have := decComps_append l []
  rw [List.append_nil] at this
  simp [this]

theorem assertBase5 (s h p k : List Nat) (mp : List String)
    (hs : s.length = 80) (hh : h.length = 64) (hp : p.length = 96) (hk : k.length = 32) :
    assertBaseProofValue [.bytes s, .bytes h, .bytes p, .bytes k, .strs mp] =
      some ⟨s, h, p, k, mp, none⟩ := by
  simp [assertBaseProofValue, hs, hh, hp, hk, Comp.asStrs]

theorem assertBase6 (s h p k e : List Nat) (mp : List String)
    (hs : s.length = 80) (hh : h.length = 64) (hp : p.length = 96) (hk : k.length = 32) :
    assertBaseProofValue [.bytes s, .bytes h, .bytes p, .bytes k, .strs mp, .bytes e] =
      some ⟨s, h, p, k, mp, some e⟩ := by
  simp [assertBaseProofValue, hs, hh, hp, hk, Comp.asStrs]

theorem assertComp5 (pr ph : List Nat) (m : List (Int × Int)) (mi si : List Int)
    (hmi : mi.all (fun n => 0 ≤ n) = true) (hsi : si.all (fun n => 0 ≤ n) = true) :
    assertCompressedProofValue [.bytes pr, .imap m, .ints mi, .ints si, .bytes ph] =
      some ⟨pr, m, mi, si, ph, none, none, none⟩ := by
  simp [assertCompressedProofValue, Comp.asInts, hmi, hsi]
  exact ⟨by simpa using hmi, by simpa using hsi⟩

theorem assertComp6 (pr ph : List Nat) (m : List (Int × Int)) (mi si : List Int) (L : Int)
    (hmi : mi.all (fun n => 0 ≤ n) = true) (hsi : si.all (fun n => 0 ≤ n) = true)
    (hL : 0 ≤ L) :
    assertCompressedProofValue [.bytes pr, .imap m, .ints mi, .ints si, .bytes ph, .num L] =
      some ⟨pr, m, mi, si, ph, none, none, some L⟩ := by
  simp [assertCompressedProofValue, Comp.asInts, hmi, hsi, hL]
  exact ⟨by simpa using hmi, by simpa using hsi⟩

theorem assertComp8 (pr ph nd py : List Nat) (m : List (Int × Int)) (mi si : List Int)
    (L : Int)
    (hmi : mi.all (fun n => 0 ≤ n) = true) (hsi : si.all (fun n => 0 ≤ n) = true)
    (hL : 0 ≤ L) :
    assertCompressedProofValue
        [.bytes pr, .imap m, .ints mi, .ints si, .bytes ph, .bytes nd, .bytes py, .num L] =
      some ⟨pr, m, mi, si, ph, some nd, some py, some L⟩ := by
  simp [assertCompressedProofValue, Comp.asInts, hmi, hsi, hL]
  exact ⟨by simpa using hmi, by simpa using hsi⟩

theorem cborBaseHdr_shape (f : Feature) :
    ∃ b2, cborBaseHdr f = [0xd9, 0x5d, b2] ∧ baseFeatureOf b2 = some f := by
  cases f <;> exact ⟨_, rfl, rfl⟩

theorem cborDerivedHdr_shape (f : Feature) :
    ∃ b2, cborDerivedHdr f = [0xd9, 0x5d, b2] ∧ derivedFeatureOf b2 = some f := by
  cases f <;> exact ⟨_, rfl, rfl⟩

theorem parse_of_serialized_base (mc : MbCodec) (cc : CborCodec)
    (hmc : mc.RoundTrip) (hcc : cc.RoundTrip) (f : Feature) (comps : List Comp)
    (pv : BasePartial) (hassert : assertBaseProofValue comps = some pv)
    (hent : (f = .PSEUDONYM ∨ f = .HOLDER_BINDING_PSEUDONYM) → pv.signerNymEntropy ≠ none) :
    parseBaseProofValue mc cc (mc.enc (cborBaseHdr f ++ cc.enc comps)) =
      .ok (pv.withFeature f) := by
  obtain ⟨b2, hhdr, hfeat⟩ := cborBaseHdr_shape f
  have hdec : mc.dec (mc.enc (cborBaseHdr f ++ cc.enc comps)) =
      some (0xd9 :: 0x5d :: b2 :: cc.enc comps) := by
    rw [hhdr, show ([0xd9, 0x5d, b2] ++ cc.enc comps : List Nat) =
        0xd9 :: 0x5d :: b2 :: cc.enc comps from rfl]
    exact hmc _
  have hccd : cc.dec (cc.enc comps) = some comps := hcc comps
  simp only [parseBaseProofValue, hdec, hfeat, hccd, hassert]
  rw [if_pos (by exact ⟨by trivial, by trivial⟩)]
  rw [if_neg (by
    rintro ⟨hf, hnone⟩
    exact hent hf hnone)]

theorem parse_of_serialized_derived (mc : MbCodec) (cc : CborCodec)
    (hmc : mc.RoundTrip) (hcc : cc.RoundTrip) (f : Feature) (comps : List Comp)
    (pv : CompressedPartial) (hassert : assertCompressedProofValue comps = some pv)
    (h1 : f = .ANONYMOUS_HOLDER_BINDING →
      ¬(pv.lengthBBSMessages = none ∨ pv.lengthBBSMessages = some 0))
    (h2 : (f = .PSEUDONYM ∨ f = .HOLDER_BINDING_PSEUDONYM) →
      ¬(pv.nymDomain = none ∨ pv.pseudonym = none ∨
        pv.lengthBBSMessages = none ∨ pv.lengthBBSMessages = some 0)) :
    parseDerivedProofValue mc cc (mc.enc (cborDerivedHdr f ++ cc.enc comps)) =
      .ok (pv.withFeature f) := by
  obtain ⟨b2, hhdr, hfeat⟩ := cborDerivedHdr_shape f
  have hdec : mc.dec (mc.enc (cborDerivedHdr f ++ cc.enc comps)) =
      some (0xd9 :: 0x5d :: b2 :: cc.enc comps) := by
    rw [hhdr, show ([0xd9, 0x5d, b2] ++ cc.enc comps : List Nat) =
        0xd9 :: 0x5d :: b2 :: cc.enc comps from rfl]
    exact hmc _
  have hccd : cc.dec (cc.enc comps) = some comps := hcc comps
  simp only [parseDerivedProofValue, hdec, hfeat, hccd, hassert]
  rw [if_pos (by exact ⟨by trivial, by trivial⟩)]
  rw [if_neg (by
    rintro ⟨hf, hc⟩
    exact h1 hf hc)]
  rw [if_neg (by
    rintro ⟨hf, hc⟩
    exact h2 hf hc)]

/-- C3 (amended): every valid base proof value serializes and parses
back to itself, and every valid derived proof value does as well, where
derived validity additionally requires a positive lengthBBSMessages for
the non-baseline features (a zero count is treated as missing by a JS
falsiness check and rejected). -/
theorem claim_C3_envelope_roundtrip (mc : MbCodec) (cc : CborCodec)
    (hmc : mc.RoundTrip) (hcc : cc.RoundTrip) :
    (∀ v : BaseProofValue, v.Valid →
      ∃ s, serializeBaseProofValue mc cc v = .ok s ∧
           parseBaseProofValue mc cc s = .ok v) ∧
    (∀ d : DerivedProofValue, d.Valid →
      ∃ s, serializeDerivedProofValue mc cc d = .ok s ∧
           parseDerivedProofValue mc cc s = .ok d) := by
  constructor
  · rintro ⟨sg, hd, pk, hk0, mp, f, en⟩ hv
    obtain ⟨hs, hh, hp, hk, hfe⟩ := hv
    simp only at hs hh hp hk hfe
    by_cases hps : f = .PSEUDONYM ∨ f = .HOLDER_BINDING_PSEUDONYM
    · rw [if_pos (by simpa using hps)] at hfe
      obtain ⟨e, he⟩ := Option.ne_none_iff_exists.mp (by simpa using hfe)
      have hassert := assertBase6 sg hd pk hk0 e mp hs hh hp hk
      refine ⟨mc.enc (cborBaseHdr f ++ cc.enc
        [.bytes sg, .bytes hd, .bytes pk, .bytes hk0, .strs mp, .bytes e]), ?_, ?_⟩
      · simp only [serializeDerivedProofValue, serializeBaseProofValue]
        rw [if_pos hps, ← he]
        simp only [List.cons_append, List.nil_append, hassert]
      · rw [parse_of_serialized_base mc cc hmc hcc f _ _ hassert (fun _ => by simp)]
        simp [BasePartial.withFeature, he]
    · rw [if_neg (by simpa using hps)] at hfe
      have hassert := assertBase5 sg hd pk hk0 mp hs hh hp hk
      refine ⟨mc.enc (cborBaseHdr f ++ cc.enc
        [.bytes sg, .bytes hd, .bytes pk, .bytes hk0, .strs mp]), ?_, ?_⟩
      · simp only [serializeBaseProofValue]
        rw [if_neg hps]
        simp only [hassert]
      · rw [parse_of_serialized_base mc cc hmc hcc f _ _ hassert
          (fun hcontra => absurd hcontra hps)]
        simp [BasePartial.withFeature, hfe]
  · rintro ⟨pr, lm, mi, si, ph, f, nd, py, len⟩ hdv
    obtain ⟨⟨entries, hnd, hlm⟩, hmi, hsi, hfe⟩ := hdv
    simp only at hlm hmi hsi hfe
    have hcomp : compressLabelMap lm =
        .ok (entries.map (fun p => ((p.1 : Int), (p.2 : Int)))) := by
      rw [hlm]
      exact compressAux_canonical entries [] (by simp) hnd
    have hdecomp : decompressLabelMap (entries.map (fun p => ((p.1 : Int), (p.2 : Int)))) =
        lm := by
      rw [hlm]
      simpa using decompressAux_canonical entries [] (by simp) hnd
    set pairs := entries.map (fun p => ((p.1 : Int), (p.2 : Int))) with hpairs
    cases f with
    | BASELINE =>
      obtain ⟨hnd0, hpy0, hlen0⟩ := hfe
      subst hnd0 hpy0 hlen0
      have hextra : extraDerivedComponents
          ⟨pr, lm, mi, si, ph, .BASELINE, none, none, none⟩ = .ok [] := by
        simp [extraDerivedComponents]
      have hassert := assertComp5 pr ph pairs mi si hmi hsi
      refine ⟨mc.enc (cborDerivedHdr .BASELINE ++ cc.enc
        [.bytes pr, .imap pairs, .ints mi, .ints si, .bytes ph]), ?_, ?_⟩
      · simp only [serializeDerivedProofValue, hcomp, hextra, List.append_nil, hassert]
      · rw [parse_of_serialized_derived mc cc hmc hcc .BASELINE _ _
          hassert (by simp) (by simp)]
        simp [CompressedPartial.withFeature, hdecomp]
    | ANONYMOUS_HOLDER_BINDING =>
      obtain ⟨hnd0, hpy0, L, hL, hL1⟩ := hfe
      subst hnd0 hpy0 hL
      have hextra : extraDerivedComponents
          ⟨pr, lm, mi, si, ph, .ANONYMOUS_HOLDER_BINDING, none, none, some L⟩ =
          .ok [.num L] := by
        simp only [extraDerivedComponents]
        rw [if_neg (by omega)]
      have hassert := assertComp6 pr ph pairs mi si L hmi hsi
        (show (0 : Int) ≤ L by omega)
      refine ⟨mc.enc (cborDerivedHdr .ANONYMOUS_HOLDER_BINDING ++ cc.enc
        [.bytes pr, .imap pairs, .ints mi, .ints si, .bytes ph, .num L]), ?_, ?_⟩
      · simp only [serializeDerivedProofValue, hcomp, hextra,
          List.cons_append, List.nil_append, hassert]
      · rw [parse_of_serialized_derived mc cc hmc hcc .ANONYMOUS_HOLDER_BINDING _ _
          hassert
          (by
            intro _
            simp only [not_or]
            exact ⟨by simp, by simp only [Option.some.injEq]; omega⟩)
          (by simp)]
        simp [CompressedPartial.withFeature, hdecomp]
    | PSEUDONYM =>
      obtain ⟨hnd0, hpy0, L, hL, hL1⟩ := hfe
      obtain ⟨ndv, hndv⟩ := Option.ne_none_iff_exists.mp hnd0
      obtain ⟨pyv, hpyv⟩ := Option.ne_none_iff_exists.mp hpy0
      subst hL
      have hndv2 : nd = some ndv := hndv.symm
      have hpyv2 : py = some pyv := hpyv.symm
      subst hndv2 hpyv2
      have hextra : extraDerivedComponents
          ⟨pr, lm, mi, si, ph, .PSEUDONYM, some ndv, some pyv, some L⟩ =
          .ok [.bytes ndv, .bytes pyv, .num L] := by
        simp only [extraDerivedComponents]
        rw [if_neg (by omega)]
      have hassert := assertComp8 pr ph ndv pyv pairs mi si L hmi hsi
        (show (0 : Int) ≤ L by omega)
      refine ⟨mc.enc (cborDerivedHdr .PSEUDONYM ++ cc.enc
        [.bytes pr, .imap pairs, .ints mi, .ints si, .bytes ph,
         .bytes ndv, .bytes pyv, .num L]), ?_, ?_⟩
      · simp only [serializeDerivedProofValue, hcomp, hextra,
          List.cons_append, List.nil_append, hassert]
      · rw [parse_of_serialized_derived mc cc hmc hcc .PSEUDONYM _ _
          hassert
          (by simp)
          (by
            intro _
            simp only [not_or]
            exact ⟨by simp, by simp, by simp,
              by simp only [Option.some.injEq]; omega⟩)]
        simp [CompressedPartial.withFeature, hdecomp]
    | HOLDER_BINDING_PSEUDONYM =>
      obtain ⟨hnd0, hpy0, L, hL, hL1⟩ := hfe
      obtain ⟨ndv, hndv⟩ := Option.ne_none_iff_exists.mp hnd0
      obtain ⟨pyv, hpyv⟩ := Option.ne_none_iff_exists.mp hpy0
      subst hL
      have hndv2 : nd = some ndv := hndv.symm
      have hpyv2 : py = some pyv := hpyv.symm
      subst hndv2 hpyv2
      have hextra : extraDerivedComponents
          ⟨pr, lm, mi, si, ph, .HOLDER_BINDING_PSEUDONYM, some ndv, some pyv, some L⟩ =
          .ok [.bytes ndv, .bytes pyv, .num L] := by
        simp only [extraDerivedComponents]
        rw [if_neg (by omega)]
      have hassert := assertComp8 pr ph ndv pyv pairs mi si L hmi hsi
        (show (0 : Int) ≤ L by omega)
      refine ⟨mc.enc (cborDerivedHdr .HOLDER_BINDING_PSEUDONYM ++ cc.enc
        [.bytes pr, .imap pairs, .ints mi, .ints si, .bytes ph,
         .bytes ndv, .bytes pyv, .num L]), ?_, ?_⟩
      · simp only [serializeDerivedProofValue, hcomp, hextra,
          List.cons_append, List.nil_append, hassert]
      · rw [parse_of_serialized_derived mc cc hmc hcc .HOLDER_BINDING_PSEUDONYM _ _
          hassert
          (by simp)
          (by
            intro _
            simp only [not_or]
            exact ⟨by simp, by simp, by simp,
              by simp only [Option.some.injEq]; omega⟩)]
        simp [CompressedPartial.withFeature, hdecomp]


/-- Counterexample to C3 as stated: a derived proof value that is valid
per the data-model invariants (lengthBBSMessages present for a
non-baseline feature) but whose BBS message count is zero does not
round-trip; serialization already fails, because the JS falsiness check
treats the zero as a missing field. -/
theorem claim_C3_counterexample :
    serializeDerivedProofValue mbWitness cborWitness
      { bbsProof := [], labelMap := [], mandatoryIndexes := [], selectiveIndexes := [],
        presentationHeader := [], feature := .ANONYMOUS_HOLDER_BINDING,
        lengthBBSMessages := some 0 } = .error .PROOF_GENERATION_ERROR := rfl

/-- Witness for C3 at a concrete base and derived value under the
concrete witness codecs. -/
theorem claim_C3_envelope_roundtrip_witness :
    (∃ s, serializeBaseProofValue mbWitness cborWitness
        { bbsSignature := List.replicate 80 0, bbsHeader := List.replicate 64 0,
          publicKey := List.replicate 96 0, hmacKey := List.replicate 32 0,
          mandatoryPointers := ["/issuer"], feature := .BASELINE } = .ok s ∧
      parseBaseProofValue mbWitness cborWitness s = .ok
        { bbsSignature := List.replicate 80 0, bbsHeader := List.replicate 64 0,
          publicKey := List.replicate 96 0, hmacKey := List.replicate 32 0,
          mandatoryPointers := ["/issuer"], feature := .BASELINE }) ∧
    (∃ s, serializeDerivedProofValue mbWitness cborWitness
        { bbsProof := [1, 2], labelMap := [("c14n0", "b0")], mandatoryIndexes := [0],
          selectiveIndexes := [], presentationHeader := [],
          feature := .BASELINE } = .ok s ∧
      parseDerivedProofValue mbWitness cborWitness s = .ok
        { bbsProof := [1, 2], labelMap := [("c14n0", "b0")], mandatoryIndexes := [0],
          selectiveIndexes := [], presentationHeader := [],
          feature := .BASELINE }) := by
  have h := claim_C3_envelope_roundtrip mbWitness cborWitness
    mbWitness_RoundTrip cborWitness_RoundTrip
  refine ⟨h.1 _ ?_, h.2 _ ?_⟩
  · refine ⟨by simp, by simp, by simp, by simp, ?_⟩
    rw [if_neg (by simp)]
  · exact ⟨⟨[(0, 0)], by decide, by decide⟩, by decide, by decide, ⟨rfl, rfl, rfl⟩⟩

theorem parseBase_cases (mc : MbCodec) (cc : CborCodec) (s : String) :
    parseBaseProofValue mc cc s = .error .PROOF_VERIFICATION_ERROR ∨
    (∃ v, parseBaseProofValue mc cc s = .ok v ∧ ValidBaseStr mc cc s) := by
  rcases hdec : mc.dec s with _ | bs
  · left
    simp [parseBaseProofValue, hdec]
  · rcases bs with _ | ⟨b0, _ | ⟨b1, _ | ⟨b2, rest⟩⟩⟩
    · left
      simp [parseBaseProofValue, hdec]
    · left
      simp [parseBaseProofValue, hdec]
    · left
      simp [parseBaseProofValue, hdec]
    · by_cases hhdr : b0 = 0xd9 ∧ b1 = 0x5d
      · obtain ⟨rfl, rfl⟩ := hhdr
        rcases hfeat : baseFeatureOf b2 with _ | f
        · left
          simp [parseBaseProofValue, hdec, hfeat]
        · rcases hcd : cc.dec rest with _ | comps
          · left
            simp [parseBaseProofValue, hdec, hfeat, hcd]
          · rcases hass : assertBaseProofValue comps with _ | pv
            · left
              simp [parseBaseProofValue, hdec, hfeat, hcd, hass]
            · by_cases hfin : (f = .PSEUDONYM ∨ f = .HOLDER_BINDING_PSEUDONYM) ∧
                  pv.signerNymEntropy = none
              · left
                simp only [parseBaseProofValue, hdec, hfeat, hcd, hass]
                rw [if_pos ⟨by trivial, by trivial⟩, if_pos hfin]
              · right
                refine ⟨pv.withFeature f, ?_,
                  ⟨b2, rest, f, comps, pv, hdec, hfeat, hcd, hass, ?_⟩⟩
                · simp only [parseBaseProofValue, hdec, hfeat, hcd, hass]
                  rw [if_pos ⟨by trivial, by trivial⟩, if_neg hfin]
                · intro hf hnone
                  exact hfin ⟨hf, hnone⟩
      · left
        simp only [parseBaseProofValue, hdec]
        rw [if_neg hhdr]

theorem parseDerived_cases (mc : MbCodec) (cc : CborCodec) (s : String) :
    parseDerivedProofValue mc cc s = .error .PROOF_VERIFICATION_ERROR ∨
    (∃ v, parseDerivedProofValue mc cc s = .ok v ∧ ValidDerivedStr mc cc s) := by
  rcases hdec : mc.dec s with _ | bs
  · left
    simp [parseDerivedProofValue, hdec]
  · rcases bs with _ | ⟨b0, _ | ⟨b1, _ | ⟨b2, rest⟩⟩⟩
    · left
      simp [parseDerivedProofValue, hdec]
    · left
      simp [parseDerivedProofValue, hdec]
    · left
      simp [parseDerivedProofValue, hdec]
    · by_cases hhdr : b0 = 0xd9 ∧ b1 = 0x5d
      · obtain ⟨rfl, rfl⟩ := hhdr
        rcases hfeat : derivedFeatureOf b2 with _ | f
        · left
          simp [parseDerivedProofValue, hdec, hfeat]
        · rcases hcd : cc.dec rest with _ | comps
          · left
            simp [parseDerivedProofValue, hdec, hfeat, hcd]
          · rcases hass : assertCompressedProofValue comps with _ | pv
            · left
              simp [parseDerivedProofValue, hdec, hfeat, hcd, hass]
            · by_cases hfin1 : f = .ANONYMOUS_HOLDER_BINDING ∧
                  (pv.lengthBBSMessages = none ∨ pv.lengthBBSMessages = some 0)
              · left
                simp only [parseDerivedProofValue, hdec, hfeat, hcd, hass]
                rw [if_pos ⟨by trivial, by trivial⟩, if_pos hfin1]
              · by_cases hfin2 : (f = .PSEUDONYM ∨ f = .HOLDER_BINDING_PSEUDONYM) ∧
                    (pv.nymDomain = none ∨ pv.pseudonym = none ∨
                     pv.lengthBBSMessages = none ∨ pv.lengthBBSMessages = some 0)
                · left
                  simp only [parseDerivedProofValue, hdec, hfeat, hcd, hass]
                  rw [if_pos ⟨by trivial, by trivial⟩, if_neg hfin1, if_pos hfin2]
                · right
                  refine ⟨pv.withFeature f, ?_,
                    ⟨b2, rest, f, comps, pv, hdec, hfeat, hcd, hass, ?_, ?_⟩⟩
                  · simp only [parseDerivedProofValue, hdec, hfeat, hcd, hass]
                    rw [if_pos ⟨by trivial, by trivial⟩, if_neg hfin1, if_neg hfin2]
                  · intro hf hc
                    exact hfin1 ⟨hf, hc⟩
                  · intro hf hc
                    exact hfin2 ⟨hf, hc⟩
      · left
        simp only [parseDerivedProofValue, hdec]
        rw [if_neg hhdr]

/-- C4 (amended): parseBaseProofValue and parseDerivedProofValue fail
with PROOF_VERIFICATION_ERROR unless the input multibase-decodes (u
prefix), carries the d9 5d tag and an allowlisted feature byte, and the
rest CBOR-decodes to a component array accepted by the assertion
checks (length 5 or 6 for base with fixed byte lengths 80/64/96/32;
length 5, 6 or 8 for derived with non-negative indexes) together with
the feature-dependent presence checks; the array length is not required
to match the feature exactly.  In particular input without the u prefix
fails, and the unallocated header d9 5d 0a fails. -/
theorem claim_C4_parse_validation (mc : MbCodec) (cc : CborCodec)
    (hnonu : mc.RejectsNonU) :
    (∀ s, ¬ ValidBaseStr mc cc s →
      parseBaseProofValue mc cc s = .error .PROOF_VERIFICATION_ERROR) ∧
    (∀ s, ¬ ValidDerivedStr mc cc s →
      parseDerivedProofValue mc cc s = .error .PROOF_VERIFICATION_ERROR) ∧
    (∀ s, s.data.head? ≠ some 'u' →
      parseBaseProofValue mc cc s = .error .PROOF_VERIFICATION_ERROR ∧
      parseDerivedProofValue mc cc s = .error .PROOF_VERIFICATION_ERROR) ∧
    parseBaseProofValue mbWitness cborWitness
      (mbWitness.enc [0xd9, 0x5d, 0x0a]) = .error .PROOF_VERIFICATION_ERROR ∧
    parseDerivedProofValue mbWitness cborWitness
      (mbWitness.enc [0xd9, 0x5d, 0x0a]) = .error .PROOF_VERIFICATION_ERROR := by
  refine ⟨?_, ?_, ?_, ?_, ?_⟩
  · intro s hv
    rcases parseBase_cases mc cc s with h | ⟨v, _, hval⟩
    · exact h
    · exact absurd hval hv
  · intro s hv
    rcases parseDerived_cases mc cc s with h | ⟨v, _, hval⟩
    · exact h
    · exact absurd hval hv
  · intro s hs
    have hd : mc.dec s = none := hnonu s hs
    constructor
    · simp [parseBaseProofValue, hd]
    · simp [parseDerivedProofValue, hd]
  · have hd := mbWitness_RoundTrip [0xd9, 0x5d, 0x0a]
    simp only [parseBaseProofValue, hd]
    rw [if_pos ⟨by trivial, by trivial⟩]
    rfl
  · have hd := mbWitness_RoundTrip [0xd9, 0x5d, 0x0a]
    simp only [parseDerivedProofValue, hd]
    rw [if_pos ⟨by trivial, by trivial⟩]
    rfl

/-- Counterexample to C4 as stated: a BASELINE base proof value whose
CBOR array has six elements (the entropy slot that the specification
reserves for the pseudonym features) parses successfully instead of
failing; the length check is 5-or-6 for every feature. -/
theorem claim_C4_counterexample :
    parseBaseProofValue mbWitness cborWitness
      (mbWitness.enc ([0xd9, 0x5d, 0x02] ++ cborWitness.enc
        [.bytes (List.replicate 80 0), .bytes (List.replicate 64 0),
         .bytes (List.replicate 96 0), .bytes (List.replicate 32 0),
         .strs [], .bytes []])) =
      .ok { bbsSignature := List.replicate 80 0, bbsHeader := List.replicate 64 0,
            publicKey := List.replicate 96 0, hmacKey := List.replicate 32 0,
            mandatoryPointers := [], feature := .BASELINE,
            signerNymEntropy := some [] } := by
  have hass : assertBaseProofValue
      [.bytes (List.replicate 80 0), .bytes (List.replicate 64 0),
       .bytes (List.replicate 96 0), .bytes (List.replicate 32 0),
       .strs [], .bytes []] =
      some ⟨List.replicate 80 0, List.replicate 64 0, List.replicate 96 0,
        List.replicate 32 0, [], some []⟩ :=
    assertBase6 _ _ _ _ _ _ (by simp) (by simp) (by simp) (by simp)
  have h := parse_of_serialized_base mbWitness cborWitness
    mbWitness_RoundTrip cborWitness_RoundTrip .BASELINE _ _ hass
    (fun hcontra => by
      rcases hcontra with hcontra | hcontra <;> exact absurd hcontra (by decide))
  rw [show cborBaseHdr .BASELINE = [0xd9, 0x5d, 0x02] from rfl] at h
  exact h

/-- Witness for C4 at concrete inputs under the witness codecs. -/
theorem claim_C4_parse_validation_witness :
    parseBaseProofValue mbWitness cborWitness "xyz" =
      .error .PROOF_VERIFICATION_ERROR ∧
    parseDerivedProofValue mbWitness cborWitness "xyz" =
      .error .PROOF_VERIFICATION_ERROR ∧
    parseBaseProofValue mbWitness cborWitness (mbWitness.enc [0xd9, 0x5d, 0x0a]) =
      .error .PROOF_VERIFICATION_ERROR := by
  have h := claim_C4_parse_validation mbWitness cborWitness mbWitness_RejectsNonU
  have hx := h.2.2.1 "xyz" (by decide)
  exact ⟨hx.1, hx.2, h.2.2.2.1⟩

theorem map_digitVal_digitChar_encSeq (b : List Nat) :
    ((encSeq b).map digitChar).map digitVal = encSeq b := by
  rw [List.map_map]
  have : ∀ x ∈ encSeq b, (digitVal ∘ digitChar) x = id x := by
    intro x hx
    simpa [Function.comp] using digitVal_digitChar (encSeq_lt b x hx)
  rw [List.map_congr_left this, List.map_id]

theorem b58Witness_RoundTrip : b58Witness.RoundTrip := by
  intro b
  show (match decSeq ((String.mk ((encSeq b).map digitChar)).data.map digitVal) with
    | some (v, []) => some v
    | _ => none) = some b
  have hdata : (String.mk ((encSeq b).map digitChar)).data = (encSeq b).map digitChar := rfl
  rw [hdata, map_digitVal_digitChar_encSeq]
  have := decSeq_encSeq b []
  rw [List.append_nil] at this
  simp [this]

theorem b64Witness_RoundTrip : b64Witness.RoundTrip := by
  intro b
  show (match decSeq ((String.mk ((encSeq b).map digitChar)).data.map digitVal) with
    | some (v, []) => some v
    | _ => none) = some b
  have hdata : (String.mk ((encSeq b).map digitChar)).data = (encSeq b).map digitChar := rfl
  rw [hdata, map_digitVal_digitChar_encSeq]
  have := decSeq_encSeq b []
  rw [List.append_nil] at this
  simp [this]

theorem b64Witness_NonEmptyEnc : b64Witness.NonEmptyEnc := by
  intro b h
  have hl : (encSeq b).map digitChar = [] := congrArg String.data h
  have h2 : encSeq b = [] := List.map_eq_nil_iff.mp hl
  have h3 : encNat b.length ++ (b.map encNat).flatten = [] := h2
  have h4 : encNat b.length = [] := (List.append_eq_nil.mp h3).1
  have h5 : digitsM b.length ++ [10] = [] := h4
  simp at h5

/-- C5: for every key material of valid length, materialToJwk returns
the fixed template: kty EC, use sig, alg and crv BLS12_381G2, ext true,
y the empty string, key_ops exactly [verify] for public and [sign] for
private, the base64url material in x (public) or d (private), and the
opposite field empty (the empty string for x, absent for d). -/
theorem claim_C5_jwk_template (b64 : B64Codec) (m : List Nat) (flag : Flag)
    (hlen : m.length = KEY_MATERIAL_LENGTH flag) :
    ∃ j, materialToJwk b64 m flag = .ok j ∧
      j.kty = "EC" ∧ j.use = "sig" ∧ j.alg = "BLS12_381G2" ∧ j.crv = "BLS12_381G2" ∧
      j.ext = true ∧ j.y = "" ∧
      (flag = .pub → j.key_ops = ["verify"] ∧ j.x = b64.enc m ∧ j.d = none) ∧
      (flag = .priv → j.key_ops = ["sign"] ∧ j.x = "" ∧ j.d = some (b64.enc m)) := by
  cases flag with
  | pub =>
    refine ⟨{ kty := "EC", use := "sig", key_ops := ["verify"], alg := "BLS12_381G2",
              ext := true, crv := "BLS12_381G2", x := b64.enc m, y := "", d := none },
      ?_, ?_⟩
    · rw [materialToJwk, if_neg (by simp [hlen])]
      rfl
    · refine ⟨rfl, rfl, rfl, rfl, rfl, rfl, ?_, ?_⟩
      · intro _
        exact ⟨rfl, rfl, rfl⟩
      · intro hcontra
        cases hcontra
  | priv =>
    refine ⟨{ kty := "EC", use := "sig", key_ops := ["sign"], alg := "BLS12_381G2",
              ext := true, crv := "BLS12_381G2", x := "", y := "",
              d := some (b64.enc m) }, ?_, ?_⟩
    · rw [materialToJwk, if_neg (by simp [hlen])]
      rfl
    · refine ⟨rfl, rfl, rfl, rfl, rfl, rfl, ?_, ?_⟩
      · intro hcontra
        cases hcontra
      · intro _
        exact ⟨rfl, rfl, rfl⟩

/-- Witness for C5 at a concrete public key material. -/
theorem claim_C5_jwk_template_witness :
    ∃ j, materialToJwk b64Witness (List.replicate 96 0) .pub = .ok j ∧
      j.kty = "EC" ∧ j.use = "sig" ∧ j.alg = "BLS12_381G2" ∧ j.crv = "BLS12_381G2" ∧
      j.ext = true ∧ j.y = "" ∧
      (Flag.pub = .pub → j.key_ops = ["verify"] ∧
        j.x = b64Witness.enc (List.replicate 96 0) ∧ j.d = none) ∧
      (Flag.pub = .priv → j.key_ops = ["sign"] ∧ j.x = "" ∧
        j.d = some (b64Witness.enc (List.replicate 96 0))) :=
  claim_C5_jwk_template b64Witness (List.replicate 96 0) .pub (by simp [KEY_MATERIAL_LENGTH])

/-- C6: the key-material codecs round-trip for material of valid
length, and multibaseToMaterial fails with DECODING_ERROR on a
multicodec header mismatch and with INVALID_KEYPAIR_LENGTH when the
remainder after the two header bytes has the wrong length. -/
theorem claim_C6_key_codec (bc : B58Codec) (b64 : B64Codec)
    (hbc : bc.RoundTrip) (hb64 : b64.RoundTrip) (hne : b64.NonEmptyEnc) :
    (∀ m flag, m.length = KEY_MATERIAL_LENGTH flag →
      ∃ s, materialToMultibase bc m flag = .ok s ∧
           multibaseToMaterial bc s flag = .ok m) ∧
    (∀ m flag, m.length = KEY_MATERIAL_LENGTH flag →
      ∃ j, materialToJwk b64 m flag = .ok j ∧ jwkToMaterial b64 j flag = .ok m) ∧
    (∀ s bs flag, bc.dec s = some bs → pfxMatches (MULTIBASE flag) bs = false →
      multibaseToMaterial bc s flag = .error .DECODING_ERROR) ∧
    (∀ s bs flag, bc.dec s = some bs → pfxMatches (MULTIBASE flag) bs = true →
      (bs.drop 2).length ≠ KEY_MATERIAL_LENGTH flag →
      multibaseToMaterial bc s flag = .error .INVALID_KEYPAIR_LENGTH) := by
  refine ⟨?_, ?_, ?_, ?_⟩
  · intro m flag hlen
    refine ⟨bc.enc (MULTIBASE flag ++ m), ?_, ?_⟩
    · rw [materialToMultibase, if_neg (by simp [hlen])]
    · have hp : pfxMatches (MULTIBASE flag) (MULTIBASE flag ++ m) = true := by
        simp [pfxMatches, List.take_left]
      have hd : (MULTIBASE flag ++ m).drop (MULTIBASE flag).length = m :=
        List.drop_left _ _
      simp [multibaseToMaterial, hbc (MULTIBASE flag ++ m), hp, hd, hlen]
  · intro m flag hlen
    cases flag with
    | pub =>
      refine ⟨{ kty := "EC", use := "sig", key_ops := ["verify"], alg := "BLS12_381G2",
                ext := true, crv := "BLS12_381G2", x := b64.enc m, y := "",
                d := none }, ?_, ?_⟩
      · rw [materialToJwk, if_neg (by simp [hlen])]
        rfl
      · simp [jwkToMaterial, hne m, hb64 m, hlen]
    | priv =>
      refine ⟨{ kty := "EC", use := "sig", key_ops := ["sign"], alg := "BLS12_381G2",
                ext := true, crv := "BLS12_381G2", x := "", y := "",
                d := some (b64.enc m) }, ?_, ?_⟩
      · rw [materialToJwk, if_neg (by simp [hlen])]
        rfl
      · simp [jwkToMaterial, hne m, hb64 m, hlen]
  · intro s bs flag hdec hpfx
    simp [multibaseToMaterial, hdec, hpfx]
  · intro s bs flag hdec hpfx hlen
    have h2 : (MULTIBASE flag).length = 2 := by cases flag <;> rfl
    have hlen2 : ¬ bs.length - 2 = KEY_MATERIAL_LENGTH flag := by
      simpa using hlen
    simp [multibaseToMaterial, hdec, hpfx, h2, hlen2]

/-- Witness for C6 at concrete inputs under the witness codecs. -/
theorem claim_C6_key_codec_witness :
    (∃ s, materialToMultibase b58Witness (List.replicate 32 0) .priv = .ok s ∧
          multibaseToMaterial b58Witness s .priv = .ok (List.replicate 32 0)) ∧
    (∃ j, materialToJwk b64Witness (List.replicate 96 0) .pub = .ok j ∧
          jwkToMaterial b64Witness j .pub = .ok (List.replicate 96 0)) ∧
    multibaseToMaterial b58Witness (b58Witness.enc [0, 0, 1]) .pub =
      .error .DECODING_ERROR ∧
    multibaseToMaterial b58Witness (b58Witness.enc [0xeb, 0x01, 5]) .pub =
      .error .INVALID_KEYPAIR_LENGTH := by
  have h := claim_C6_key_codec b58Witness b64Witness b58Witness_RoundTrip
    b64Witness_RoundTrip b64Witness_NonEmptyEnc
  refine ⟨h.1 _ _ (by simp [KEY_MATERIAL_LENGTH]), h.2.1 _ _ (by simp [KEY_MATERIAL_LENGTH]), ?_, ?_⟩
  · exact h.2.2.1 _ [0, 0, 1] .pub (b58Witness_RoundTrip [0, 0, 1]) (by decide)
  · exact h.2.2.2 _ [0xeb, 0x01, 5] .pub (b58Witness_RoundTrip [0xeb, 0x01, 5])
      (by decide) (by decide)

/-- C10: the expires field of an exported verification method is
derived from the keypair's revoked date: it is present exactly when
revoked is set and then equals the revoked timestamp; the keypair's own
expires attribute is never consulted.  This holds for both the Multikey
and the JWK exporter. -/
theorem claim_C10_expires_from_revoked (bc : B58Codec) (b64 : B64Codec)
    (w3c : String → String) (thumb : JWKEC → String) (kp : Keypair) (flag : Flag) :
    (∀ doc, keypairToMultibase bc w3c kp flag = .ok doc →
      doc.expires = kp.revoked.map w3c ∧ doc.revoked = kp.revoked.map w3c) ∧
    (∀ doc, keypairToJwk b64 w3c thumb kp flag = .ok doc →
      doc.expires = kp.revoked.map w3c ∧ doc.revoked = kp.revoked.map w3c) := by
  constructor
  · intro doc hdoc
    unfold keypairToMultibase at hdoc
    repeat' split at hdoc
    all_goals first
      | (subst hdoc
         exact ⟨rfl, rfl⟩)
      | (injection hdoc with h
         subst h
         exact ⟨rfl, rfl⟩)
      | simp at hdoc
  · intro doc hdoc
    unfold keypairToJwk at hdoc
    repeat' split at hdoc
    all_goals first
      | (subst hdoc
         exact ⟨rfl, rfl⟩)
      | (injection hdoc with h
         subst h
         exact ⟨rfl, rfl⟩)
      | simp at hdoc

/-- Witness for C10: a keypair with expires set but revoked unset
exports documents with no expires field, under both exporters. -/
theorem claim_C10_expires_from_revoked_witness :
    (∃ doc, keypairToMultibase b58Witness (fun t => t)
        { id := some "did:example:i#k", controller := some "did:example:i",
          expires := some "2030-01-01T00:00:00Z", revoked := none,
          privateKey := none, publicKey := some (List.replicate 96 0) } .pub =
        .ok doc ∧ doc.expires = none ∧ doc.revoked = none) ∧
    (∃ doc, keypairToJwk b64Witness (fun t => t) (fun _ => "TP")
        { id := some "did:example:i#k", controller := some "did:example:i",
          expires := some "2030-01-01T00:00:00Z", revoked := none,
          privateKey := none, publicKey := some (List.replicate 96 0) } .pub =
        .ok doc ∧ doc.expires = none ∧ doc.revoked = none) := by
  constructor
  · exact ⟨_, rfl, (claim_C10_expires_from_revoked b58Witness b64Witness
      (fun t => t) (fun _ => "TP")
      { id := some "did:example:i#k", controller := some "did:example:i",
        expires := some "2030-01-01T00:00:00Z", revoked := none,
        privateKey := none, publicKey := some (List.replicate 96 0) } .pub).1 _ rfl⟩
  · exact ⟨_, rfl, (claim_C10_expires_from_revoked b58Witness b64Witness
      (fun t => t) (fun _ => "TP")
      { id := some "did:example:i#k", controller := some "did:example:i",
        expires := some "2030-01-01T00:00:00Z", revoked := none,
        privateKey := none, publicKey := some (List.replicate 96 0) } .pub).2 _ rfl⟩

/-- C2: evaluation of the implemented index computation at a
three-statement grouping where one statement is selected by neither
pointer set.  The implementation returns the global statement indexes
([2] for the mandatory group), while the procedure comment in the
source and the specification prescribe positions within the enclosing
key list ([1]); the bound every-element-less-than-the-combined-size is
violated as well. -/
theorem claim_C2_disclosure_indexes :
    disclosureIndexes [("s0", []), ("s1", ["/s"]), ("s2", ["/m"])] ["/m"] ["/s"] =
      ([2], [1]) ∧
    disclosureIndexesSpec [("s0", []), ("s1", ["/s"]), ("s2", ["/m"])] ["/m"] ["/s"] =
      ([1], [1]) ∧
    ¬ (∀ i ∈ (disclosureIndexes [("s0", []), ("s1", ["/s"]), ("s2", ["/m"])]
        ["/m"] ["/s"]).1,
      i < (matching (["/m"] ++ ["/s"]) [("s0", []), ("s1", ["/s"]), ("s2", ["/m"])]).length) := by
  exact ⟨by decide, by decide, by decide⟩

/-- C9 (amended): the disclosure feature dispatch calls the basic BBS
ProofGen collaborator for BASELINE and fails with
PROOF_GENERATION_ERROR (unsupported feature option) for every other
feature; no blind or pseudonym primitive is invoked. -/
theorem claim_C9_feature_dispatch
    (prove : List Nat → List Nat → List Nat → List Nat → List String → List Nat → List Nat)
    (pk sig hd ph : List Nat) (msgs : List String) (idx : List Nat) :
    disclosureBbsProof prove .BASELINE pk sig hd ph msgs idx =
      .ok (prove pk sig hd ph msgs idx) ∧
    ∀ f, f ≠ .BASELINE →
      disclosureBbsProof prove f pk sig hd ph msgs idx =
        .error .PROOF_GENERATION_ERROR := by
  refine ⟨rfl, ?_⟩
  intro f hf
  cases f
  · exact absurd rfl hf
  · rfl
  · rfl
  · rfl

/-- Counterexample to C9 as stated: for the ANONYMOUS_HOLDER_BINDING
feature the derivation pipeline does not invoke BlindProofGen (or any
primitive); it fails with PROOF_GENERATION_ERROR. -/
theorem claim_C9_counterexample :
    disclosureBbsProof (fun _ _ _ _ _ _ => [7]) .ANONYMOUS_HOLDER_BINDING
      [] [] [] [] [] [] = .error .PROOF_GENERATION_ERROR := rfl

/-- Witness for C9 at concrete inputs. -/
theorem claim_C9_feature_dispatch_witness :
    disclosureBbsProof (fun _ _ _ _ _ _ => [7]) .BASELINE [] [] [] [] [] [] = .ok [7] ∧
    disclosureBbsProof (fun _ _ _ _ _ _ => [7]) .PSEUDONYM [] [] [] [] [] [] =
      .error .PROOF_GENERATION_ERROR := by
  have h := claim_C9_feature_dispatch (fun _ _ _ _ _ _ => [7]) [] [] [] [] [] []
  exact ⟨h.1, h.2 .PSEUDONYM (by decide)⟩

set_option maxRecDepth 8000 in
/-- C1: evaluation of the full issue, derive and verify pipeline at a
three-statement credential (statement s2 mandatory, s1 selectively
disclosed, s0 undisclosed) with the section 4.7 verifier modelled from
the spec.  The derived proof fails verification (the verifier returns
false) because derive emits global statement indexes; with the
position-based index computation the same pipeline verifies.  A base
proof value is rejected outright by the derived-proof parser. -/
theorem claim_C1_verify_end_to_end :
    ((issueBase mbWitness cborWitness [("s0", []), ("s1", ["/s"]), ("s2", ["/m"])]
        ["/m"] [] (List.replicate 96 0) (List.replicate 32 0) "pc").bind
      (fun baseStr =>
        (deriveBase mbWitness cborWitness [("s0", []), ("s1", ["/s"]), ("s2", ["/m"])]
            baseStr ["/s"] []).bind (fun pr =>
          verifySpec mbWitness cborWitness pr.2 pr.1 (List.replicate 96 0) "pc"))) =
      .ok false ∧
    ((issueBase mbWitness cborWitness [("s0", []), ("s1", ["/s"]), ("s2", ["/m"])]
        ["/m"] [] (List.replicate 96 0) (List.replicate 32 0) "pc").bind
      (fun baseStr =>
        (deriveBaseSpec mbWitness cborWitness [("s0", []), ("s1", ["/s"]), ("s2", ["/m"])]
            baseStr ["/s"] []).bind (fun pr =>
          verifySpec mbWitness cborWitness pr.2 pr.1 (List.replicate 96 0) "pc"))) =
      .ok true ∧
    ((issueBase mbWitness cborWitness [("s0", []), ("s1", ["/s"]), ("s2", ["/m"])]
        ["/m"] [] (List.replicate 96 0) (List.replicate 32 0) "pc").bind
      (fun baseStr =>
        verifySpec mbWitness cborWitness
          (selectJsonLd ["/m"] [("s0", []), ("s1", ["/s"]), ("s2", ["/m"])])
          baseStr (List.replicate 96 0) "pc")) =
      .error .PROOF_VERIFICATION_ERROR := by
  exact ⟨rfl, rfl, rfl⟩

end VcBbs
